import Mathlib

/-!
# light-stemcell-builder: isolated-region publishing pipeline

A shallow embedding of

* `publisher/isolated_region.go`  (`IsolatedRegionPublisher.Publish`),
* `driver/uploader.go`            (`S3Uploader.Upload`, `GetFileInfo`, `LocalfileInS3`, `getMd5`),
* `driver/create_machine_image_manifest_driver_gen2.go`
  (`SDKCreateMachineImageManifestDriverGen2.Create`, `generateManifest`, `uploadManifest`),

together with the properties of the pipeline that are stated about them.

Conventions.  A Go `error` is its message (`err.Error()`); `nil` is `none`.  A Go call that
returns `(T, error)` is an `Except String T`.  Calls to injected drivers and to remote services
are functions on an abstract world state `σ`; every such call is also recorded, in program
order, in a list of calls so that properties about which calls happen, and in which order, can
be stated.  Deferred functions run when the surrounding function returns, last registered
first, after the return values have been fixed.
-/

namespace LightStemcell

/-! ## `resources`: the handles passed between the pipeline and its drivers -/

namespace resources

/-- The image properties handed to the AMI driver (`resources.AmiProperties`). -/
structure AmiProperties where
  Name : String
  Description : String
  Accessibility : String
  VirtualizationType : String
  Tags : List (String × String)
  deriving DecidableEq, Repr

/-- The configuration of the machine-image driver (`resources.MachineImageDriverConfig`). -/
structure MachineImageDriverConfig where
  MachineImagePath : String
  BucketName : String
  BucketFolder : String
  ServerSideEncryption : String
  FileFormat : String
  VolumeSizeGB : Int
  deriving DecidableEq, Repr

/-- A machine image: the manifest URL and the URLs that delete its objects. -/
structure MachineImage where
  GetURL : String
  DeleteURLs : List String
  deriving DecidableEq, Repr

/-- The configuration of the volume driver. -/
structure VolumeDriverConfig where
  MachineImageManifestURL : String
  deriving DecidableEq, Repr

/-- A volume handle. -/
structure Volume where
  ID : String
  deriving DecidableEq, Repr

/-- The configuration of the snapshot driver. -/
structure SnapshotDriverConfig where
  VolumeID : String
  deriving DecidableEq, Repr

/-- A snapshot handle. -/
structure Snapshot where
  ID : String
  deriving DecidableEq, Repr

/-- The configuration of the AMI driver. -/
structure AmiDriverConfig where
  SnapshotID : String
  AmiProperties : AmiProperties
  deriving DecidableEq, Repr

/-- A registered image handle. -/
structure Ami where
  ID : String
  deriving DecidableEq, Repr

end resources

/-! ## `collection.Ami` -/

namespace collection

/-- Modelled from the spec: the package `collection` (type `Ami` and its method `Add`) is not
among the sources.  The collection "accumulates one or more registered images keyed by
virtualization/boot mode" and is "append-only during a publish run". -/
structure Ami where
  VirtualizationType : String
  amis : List resources.Ami := []
  deriving DecidableEq, Repr

/-- Modelled from the spec: `Add` appends a registered image to the collection. -/
def Ami.Add (a : Ami) (ami : resources.Ami) : Ami :=
  { a with amis := a.amis ++ [ami] }

end collection

/-! ## `publisher`: the region publishing pipeline -/

namespace publisher

open resources

/-- The per-image input of `Publish` (`publisher.MachineImageConfig`). -/
structure MachineImageConfig where
  LocalPath : String
  FileFormat : String
  VolumeSizeGB : Int
  deriving DecidableEq, Repr

/-- The publisher (`IsolatedRegionPublisher`); the logger is represented by the log lines that
`Publish` produces. -/
structure IsolatedRegionPublisher where
  Region : String
  BucketName : String
  BucketFolder : String
  KeepImg : Bool
  ServerSideEncryption : String
  AmiProperties : AmiProperties
  deriving DecidableEq, Repr

/-- The drivers `Publish` obtains from `driverset.IsolatedRegionDriverSet`.  Each method takes
the world before the call and returns its result with the world after the call; a `Delete`
returns its error, if any. -/
structure IsolatedRegionDriverSet (σ : Type) where
  MachineImageCreate : MachineImageDriverConfig → σ → Except String MachineImage × σ
  MachineImageDelete : MachineImage → σ → Option String × σ
  VolumeCreate : VolumeDriverConfig → σ → Except String Volume × σ
  VolumeDelete : Volume → σ → Option String × σ
  SnapshotCreate : SnapshotDriverConfig → σ → Except String Snapshot × σ
  AmiCreate : AmiDriverConfig → σ → Except String Ami × σ

/-- One call made by `Publish` on a driver. -/
inductive Call where
  | machineImageCreate (cfg : MachineImageDriverConfig)
  | machineImageDelete (mi : MachineImage)
  | volumeCreate (cfg : VolumeDriverConfig)
  | volumeDelete (v : Volume)
  | snapshotCreate (cfg : SnapshotDriverConfig)
  | amiCreate (cfg : AmiDriverConfig)
  deriving DecidableEq, Repr

/-- What a run of `Publish` produces: the two return values, the driver calls in the order in
which they were made, the lines written to the logger about failed deletes, and the world
after the run. -/
structure Run (σ : Type) where
  amis : Option collection.Ami
  err : Option String
  calls : List Call
  logs : List String
  world : σ

/-- The deferred function of lines 63-70: unless `KeepImg`, delete the machine image and log a
failure.  It runs after the return values of `r` are fixed and does not touch them. -/
def deferDeleteMachineImage {σ : Type} (p : IsolatedRegionPublisher)
    (ds : IsolatedRegionDriverSet σ) (machineImage : MachineImage) (r : Run σ) : Run σ :=
  if !p.KeepImg then
    match ds.MachineImageDelete machineImage r.world with
    | (some err, w) =>
      { r with
        calls := r.calls ++ [Call.machineImageDelete machineImage]
        logs := r.logs ++ ["Failed to delete machine image " ++ machineImage.GetURL ++ ": " ++ err]
        world := w }
    | (none, w) =>
      { r with calls := r.calls ++ [Call.machineImageDelete machineImage], world := w }
  else r

/-- The deferred function of lines 82-87: delete the volume and log a failure. -/
def deferDeleteVolume {σ : Type} (ds : IsolatedRegionDriverSet σ) (volume : Volume)
    (r : Run σ) : Run σ :=
  match ds.VolumeDelete volume r.world with
  | (some err, w) =>
    { r with
      calls := r.calls ++ [Call.volumeDelete volume]
      logs := r.logs ++ ["Failed to delete volume " ++ volume.ID ++ ": " ++ err]
      world := w }
  | (none, w) => { r with calls := r.calls ++ [Call.volumeDelete volume], world := w }

/-- Lines 89-117 of `Publish`: the part of the body that runs once both deferred deletes are
registered.  `cs` are the calls made so far. -/
def publishSnapshotAndAmi {σ : Type} (p : IsolatedRegionPublisher)
    (ds : IsolatedRegionDriverSet σ) (volume : Volume) (cs : List Call) (w : σ) : Run σ :=
  let snapshotDriverConfig : SnapshotDriverConfig := { VolumeID := volume.ID }
  match ds.SnapshotCreate snapshotDriverConfig w with
  | (.error err, w) =>
    { amis := none, err := some ("creating snapshot: " ++ err)
      calls := cs ++ [Call.snapshotCreate snapshotDriverConfig], logs := [], world := w }
  | (.ok snapshot, w) =>
    let createAmiDriverConfig : AmiDriverConfig :=
      { SnapshotID := snapshot.ID, AmiProperties := p.AmiProperties }
    let cs := cs ++ [Call.snapshotCreate snapshotDriverConfig]
    match ds.AmiCreate createAmiDriverConfig w with
    | (.error err, w) =>
      { amis := none, err := some ("creating ami: " ++ err)
        calls := cs ++ [Call.amiCreate createAmiDriverConfig], logs := [], world := w }
    | (.ok sourceAmi, w) =>
      let amis : collection.Ami := { VirtualizationType := p.AmiProperties.VirtualizationType }
      { amis := some (amis.Add sourceAmi), err := none
        calls := cs ++ [Call.amiCreate createAmiDriverConfig], logs := [], world := w }

/-- Lines 72-117 of `Publish`, with the deferred volume delete of lines 82-87: the part of the
body that runs once the deferred machine-image delete is registered. -/
def publishVolume {σ : Type} (p : IsolatedRegionPublisher) (ds : IsolatedRegionDriverSet σ)
    (machineImage : MachineImage) (cs : List Call) (w : σ) : Run σ :=
  let volumeDriverConfig : VolumeDriverConfig :=
    { MachineImageManifestURL := machineImage.GetURL }
  match ds.VolumeCreate volumeDriverConfig w with
  | (.error err, w) =>
    { amis := none, err := some ("creating volume: " ++ err)
      calls := cs ++ [Call.volumeCreate volumeDriverConfig], logs := [], world := w }
  | (.ok volume, w) =>
    deferDeleteVolume ds volume
      (publishSnapshotAndAmi p ds volume (cs ++ [Call.volumeCreate volumeDriverConfig]) w)

/-- Lines 48-55 of `Publish`: the configuration built for the machine-image driver. -/
def machineImageDriverConfigOf (p : IsolatedRegionPublisher)
    (machineImageConfig : MachineImageConfig) : MachineImageDriverConfig :=
  { MachineImagePath := machineImageConfig.LocalPath
    BucketName := p.BucketName
    BucketFolder := p.BucketFolder
    ServerSideEncryption := p.ServerSideEncryption
    FileFormat := machineImageConfig.FileFormat
    VolumeSizeGB := machineImageConfig.VolumeSizeGB }

/-- The method `IsolatedRegionPublisher.Publish`.  The deferred timing log of lines 43-46 (a
wall-clock duration) is left out; it runs last and changes neither the return values nor the
calls. -/
def Publish {σ : Type} (p : IsolatedRegionPublisher) (ds : IsolatedRegionDriverSet σ)
    (machineImageConfig : MachineImageConfig) (w : σ) : Run σ :=
  let machineImageDriverConfig := machineImageDriverConfigOf p machineImageConfig
  match ds.MachineImageCreate machineImageDriverConfig w with
  | (.error err, w) =>
    { amis := none, err := some ("creating machine image: " ++ err)
      calls := [Call.machineImageCreate machineImageDriverConfig], logs := [], world := w }
  | (.ok machineImage, w) =>
    deferDeleteMachineImage p ds machineImage
      (publishVolume p ds machineImage [Call.machineImageCreate machineImageDriverConfig] w)

/-- Whether a call is a `Delete` on some driver. -/
def Call.isDelete : Call → Bool
  | .machineImageDelete _ => true
  | .volumeDelete _ => true
  | _ => false

/-- Whether a call is a `Delete` on the machine-image driver. -/
def Call.isMachineImageDelete : Call → Bool
  | .machineImageDelete _ => true
  | _ => false

/-- Whether a call is a `Delete` on the volume driver. -/
def Call.isVolumeDelete : Call → Bool
  | .volumeDelete _ => true
  | _ => false

/-- Whether a call is a `Create` on the AMI driver. -/
def Call.isAmiCreate : Call → Bool
  | .amiCreate _ => true
  | _ => false

/-! ### Concrete drivers used to exercise `Publish` -/

/-- A publisher configuration for the examples. -/
def examplePublisher (keepImg : Bool) : IsolatedRegionPublisher :=
  { Region := "cn-north-1", BucketName := "bkt", BucketFolder := "dir", KeepImg := keepImg
    ServerSideEncryption := ""
    AmiProperties :=
      { Name := "stemcell", Description := "d", Accessibility := "private"
        VirtualizationType := "hvm", Tags := [] } }

/-- An image configuration for the examples. -/
def exampleImageConfig : MachineImageConfig :=
  { LocalPath := "root.img", FileFormat := "RAW", VolumeSizeGB := 0 }

/-- The machine image the example driver creates. -/
def exampleMachineImage : MachineImage :=
  { GetURL := "https://get/manifest", DeleteURLs := ["https://del/manifest", "https://del/image"] }

/-- Fake drivers on a trivial world: every `Create` succeeds except the snapshot and the AMI
`Create`, which fail when asked to; the two `Delete`s return the given results. -/
def exampleDrivers (snapshotFails amiFails : Bool) (miDel volDel : Option String) :
    IsolatedRegionDriverSet Unit :=
  { MachineImageCreate := fun _ w => (.ok exampleMachineImage, w)
    MachineImageDelete := fun _ w => (miDel, w)
    VolumeCreate := fun _ w => (.ok { ID := "vol-1" }, w)
    VolumeDelete := fun _ w => (volDel, w)
    SnapshotCreate := fun _ w =>
      (if snapshotFails then .error "snapshot quota" else .ok { ID := "snap-1" }, w)
    AmiCreate := fun _ w =>
      (if amiFails then .error "register denied" else .ok { ID := "ami-1" }, w) }

end publisher

/-! ## Go library functions used by the driver

`path.Clean`, `path.Join`, `filepath.Base` (Unix) and `strings.SplitN` from the Go standard
library, on the characters of a string.  The functions only ever look for the bytes `/` and
`.`, which are single-byte characters in UTF-8, so working on characters instead of bytes makes
no difference for valid UTF-8 strings. -/

namespace gopath

/-- The `..` case of `path.Clean` when it can backtrack: `out.w--`, then
`for out.w > dotdot && out.index(out.w) != '/' { out.w-- }`; the result is the new `out.w`,
computed from the value `w` it has after the first decrement. -/
def backtrackTo (out : List Char) (dotdot : Nat) : Nat → Nat
  | 0 => 0
  | w + 1 => if w + 1 > dotdot ∧ out[w + 1]? ≠ some '/' then backtrackTo out dotdot w else w + 1

/-- The buffer after backtracking over the last element. -/
def backtrack (out : List Char) (dotdot : Nat) : List Char :=
  out.take (backtrackTo out dotdot (out.length - 1))

/-- The `for r < n` loop of `path.Clean`.  `out` is the buffer written so far (`out.w` is its
length), `dotdot` the index where `..` must stop, and the last argument is the unread rest of
the path, `path[r:]`.  The pair returned is the final `out` and `dotdot`.  Every iteration
consumes at least one character, so a fuel of the length of the rest is enough. -/
def cleanLoop (rooted : Bool) : Nat → List Char → Nat → List Char → List Char × Nat
  | 0, out, dotdot, _ => (out, dotdot)
  | fuel + 1, out, dotdot, rest =>
    match rest with
    | [] => (out, dotdot)
    | c :: t =>
      if c = '/' then
        -- empty path element
        cleanLoop rooted fuel out dotdot t
      else if c = '.' ∧ (t = [] ∨ t.head? = some '/') then
        -- . element
        cleanLoop rooted fuel out dotdot t
      else if c = '.' ∧ t.head? = some '.' ∧ (t.tail = [] ∨ t.tail.head? = some '/') then
        -- .. element: remove to last /
        if out.length > dotdot then
          cleanLoop rooted fuel (backtrack out dotdot) dotdot t.tail
        else if !rooted then
          let out1 := (if out.length > 0 then out ++ ['/'] else out) ++ ['.', '.']
          cleanLoop rooted fuel out1 out1.length t.tail
        else
          cleanLoop rooted fuel out dotdot t.tail
      else
        -- real path element: add slash if needed, copy element
        let out1 :=
          if (rooted = true ∧ out.length ≠ 1) ∨ (rooted = false ∧ out.length ≠ 0) then
            out ++ ['/']
          else out
        cleanLoop rooted fuel (out1 ++ rest.takeWhile (fun x => x ≠ '/')) dotdot
          (rest.dropWhile (fun x => x ≠ '/'))

/-- Go's `path.Clean`. -/
def Clean (path : List Char) : List Char :=
  match path with
  | [] => ['.']
  | c :: t =>
    let out :=
      if c = '/' then (cleanLoop true t.length ['/'] 1 t).1
      else (cleanLoop false (c :: t).length [] 0 (c :: t)).1
    -- Turn empty string into "."
    if out.length = 0 then ['.'] else out

/-- The buffer `path.Join` builds before cleaning: the elements separated by `/`, leading empty
elements ignored. -/
def joinBuf (elem : List (List Char)) : List Char :=
  elem.foldl
    (fun buf e =>
      if buf.length > 0 ∨ e ≠ [] then (if buf.length > 0 then buf ++ ['/'] else buf) ++ e
      else buf)
    []

/-- Go's `path.Join`. -/
def Join (elem : List (List Char)) : List Char :=
  if (elem.map List.length).sum = 0 then [] else Clean (joinBuf elem)

/-- Go's `filepath.Base` on Unix (no volume name, separator `/`). -/
def Base (path : List Char) : List Char :=
  if path = [] then ['.']
  else
    -- Strip trailing slashes.
    let path := (path.reverse.dropWhile (fun x => x = '/')).reverse
    -- Find the last element
    let path := (path.reverse.takeWhile (fun x => x ≠ '/')).reverse
    -- If empty now, it had only slashes.
    if path = [] then ['/'] else path

/-- Go's `strings.SplitN(s, "/", 2)`: `s` cut at its first `/`, or `s` alone when it has none. -/
def SplitN2 (s : List Char) : List (List Char) :=
  if '/' ∈ s then [s.takeWhile (fun x => x ≠ '/'), (s.dropWhile (fun x => x ≠ '/')).tail]
  else [s]

/-! ### Notions used to reason about `path.Clean` -/

/-- The state of the loop of `path.Clean` after one path element `elem` (a non-empty stretch
without `/`): `.` is skipped, `..` backtracks or is appended, anything else is appended. -/
def elemStep (rooted : Bool) (st : List Char × Nat) (elem : List Char) : List Char × Nat :=
  if elem = ['.'] then st
  else if elem = ['.', '.'] then
    if st.1.length > st.2 then (backtrack st.1 st.2, st.2)
    else if !rooted then
      ((if st.1.length > 0 then st.1 ++ ['/'] else st.1) ++ ['.', '.'],
       ((if st.1.length > 0 then st.1 ++ ['/'] else st.1) ++ ['.', '.']).length)
    else st
  else
    ((if (rooted = true ∧ st.1.length ≠ 1) ∨ (rooted = false ∧ st.1.length ≠ 0) then
        st.1 ++ ['/']
      else st.1) ++ elem, st.2)

/-- The loop of `path.Clean` with exactly the fuel it needs. -/
def run (rooted : Bool) (st : List Char × Nat) (rest : List Char) : List Char × Nat :=
  cleanLoop rooted rest.length st.1 st.2 rest

/-- The last step of `path.Clean`: an empty buffer becomes `"."`. -/
def finish (out : List Char) : List Char := if out.length = 0 then ['.'] else out

/-- The characters of the suffix `-manifest`. -/
def manifestSuffix : List Char := ['-', 'm', 'a', 'n', 'i', 'f', 'e', 's', 't']

/-- The elements of a path: the stretches between its slashes (`strings.Split(p, "/")`). -/
def splitSlash : List Char → List (List Char)
  | [] => [[]]
  | c :: cs =>
    if c = '/' then [] :: splitSlash cs
    else
      match splitSlash cs with
      | h :: t => (c :: h) :: t
      | [] => [[c]]

/-- A plain name: non-empty, without `/`, and neither `.` nor `..`. -/
def Plain (c : List Char) : Prop := c ≠ [] ∧ '/' ∉ c ∧ c ≠ ['.'] ∧ c ≠ ['.', '.']

/-- A clean relative path without `..`: plain names separated by single slashes. -/
inductive NormRel : List Char → Prop where
  | single (c : List Char) : Plain c → NormRel c
  | snoc (p c : List Char) : NormRel p → Plain c → NormRel (p ++ '/' :: c)

end gopath

/-- Go's `path.Join(a, b)` on strings. -/
def pathJoin (a b : String) : String := ⟨gopath.Join [a.data, b.data]⟩

/-- Go's `filepath.Base` on strings. -/
def filepathBase (path : String) : String := ⟨gopath.Base path.data⟩

/-- Go's `strings.SplitN(s, "/", 2)` on strings. -/
def stringsSplitN2 (s : String) : List String := (gopath.SplitN2 s.data).map String.mk

/-! ## `driver/manifests` -/

namespace manifests

/-- The properties `generateManifest` hands to `manifests.New`. -/
structure MachineImageProperties where
  KeyName : String
  HeadURL : String
  GetURL : String
  DeleteURL : String
  SizeBytes : Int
  VolumeSizeGB : Int
  FileFormat : String
  deriving DecidableEq, Repr

/-- Modelled from the spec: the package `driver/manifests` is not among the sources.  One part
of the import manifest carries the "object key", "a fetch capability, a probe capability, a
delete capability for the object". -/
structure Part where
  Key : String
  HeadURL : String
  GetURL : String
  DeleteURL : String
  deriving DecidableEq, Repr

/-- Modelled from the spec: the parts of a manifest; the driver reads `m.Parts.Part`. -/
structure Parts where
  Part : Part
  deriving DecidableEq, Repr

/-- Modelled from the spec: the import manifest, "a structured document containing — object
key, size in bytes, target volume size in gigabytes, file format tag, a fetch capability, a
probe capability, a delete capability for the object, and a separate delete capability for the
manifest document itself" (`SelfDestructURL`). -/
structure ImportVolumeManifest where
  FileFormat : String
  SelfDestructURL : String
  SizeBytes : Int
  VolumeSizeGB : Int
  Parts : Parts
  deriving DecidableEq, Repr

/-- Modelled from the spec: `manifests.New` copies the image properties into the document; the
self-destruct capability is not among the properties and is filled in by `uploadManifest`. -/
def New (imageProps : MachineImageProperties) : ImportVolumeManifest :=
  { FileFormat := imageProps.FileFormat
    SelfDestructURL := ""
    SizeBytes := imageProps.SizeBytes
    VolumeSizeGB := imageProps.VolumeSizeGB
    Parts :=
      { Part :=
          { Key := imageProps.KeyName
            HeadURL := imageProps.HeadURL
            GetURL := imageProps.GetURL
            DeleteURL := imageProps.DeleteURL } } }

end manifests

/-! ## `driver`: fingerprinting, dedup, upload and the machine-image manifest -/

namespace driver

open resources

/-- How a Go function call ends: it returns, or it panics. -/
inductive Outcome (α : Type) where
  | ret (a : α)
  | panic (msg : String)
  deriving DecidableEq, Repr

/-- The receiver of `file.Stat()`, `io.Copy(hash, file)` and of the upload body: what an opened
`*os.File` yields when asked for its size and when read to the end. -/
structure OpenFile where
  stat : Except String Int
  read : Except String (List Nat)

/-- The fingerprint of a local file (`FileInfoT`). -/
structure FileInfoT where
  filePath : String
  size : Int
  md5 : String
  deriving DecidableEq, Repr

/-- The fields of `s3.HeadObjectOutput` the driver reads. -/
structure HeadObjectOutput where
  Metadata : List (String × String)
  ContentLength : Int
  deriving DecidableEq, Repr

/-- The `s3.PutObjectInput` that `Upload` builds; `Body` is the path of the file that was
opened for it. -/
structure PutObjectInput where
  Bucket : String
  Key : String
  Body : String
  ContentType : String
  Metadata : List (String × String)
  deriving DecidableEq, Repr

/-- The local file system, the hash function and the S3 client as the driver sees them, over a
world `σ`.  Opening a file, probing an object and signing a request do not change the world;
an upload and writing a file do. -/
structure Env (σ : Type) where
  Open : String → σ → Except String OpenFile
  md5hex : List Nat → String
  HeadObject : String → String → σ → Except String HeadObjectOutput
  Upload : PutObjectInput → σ → Except String Unit × σ
  PresignGetObject : String → String → Except String String
  PresignHeadObject : String → String → Except String String
  PresignDeleteObject : String → String → Except String String
  Marshal : manifests.ImportVolumeManifest → Except String (List Nat)
  WriteFile : String → List Nat → σ → Option String × σ

/-- One request made by the driver to S3 or to the local disk. -/
inductive Effect where
  | headObject (bucket key : String)
  | upload (input : PutObjectInput)
  | presignGetObject (bucket key : String)
  | presignHeadObject (bucket key : String)
  | presignDeleteObject (bucket key : String)
  | writeFile (name : String) (bytes : List Nat)
  deriving DecidableEq, Repr

/-- A finished call: how it ended, the requests it made, in order, and the world after it. -/
structure Step (σ α : Type) where
  out : Outcome α
  calls : List Effect
  world : σ

/-- The function `getMd5`: the hex digest of everything read from `f`, or `""` when reading
fails. -/
def getMd5 (md5hex : List Nat → String) (f : OpenFile) : String :=
  match f.read with
  | .error _ => ""
  | .ok bytes => md5hex bytes

/-- The function `GetFileInfo`.  The error of `file.Stat()` is discarded, so a failing `Stat`
leaves a nil `fInfo` whose `Size()` panics; the error returned at the end is the one of
`os.Open`, and a read error inside `getMd5` never reaches the caller. -/
def GetFileInfo {σ : Type} (env : Env σ) (filePath : String) (w : σ) :
    Outcome (FileInfoT × Option String) :=
  match env.Open filePath w with
  | .error err => .ret ({ filePath := "", size := 0, md5 := "" }, some err)
  | .ok file =>
    match file.stat with
    | .error _ => .panic "invalid memory address or nil pointer dereference"
    | .ok size =>
      .ret ({ filePath := filePath, size := size, md5 := getMd5 env.md5hex file }, none)

/-- The function `LocalfileInS3`.  Indexing `s[1]` panics when `s3Path` has no `/`. -/
def LocalfileInS3 {σ : Type} (env : Env σ) (s3Path : String) (localFile : FileInfoT) (w : σ) :
    Step σ Bool :=
  let s := stringsSplitN2 s3Path
  match s[0]?, s[1]? with
  | some bucket, some key =>
    match env.HeadObject bucket key w with
    | .error _ => { out := .ret false, calls := [.headObject bucket key], world := w }
    | .ok head =>
      match head.Metadata.lookup "md5" with
      | some val =>
        { out := .ret (decide (localFile.md5 = val)), calls := [.headObject bucket key]
          world := w }
      | none => { out := .ret false, calls := [.headObject bucket key], world := w }
  | _, _ => { out := .panic "index out of range [1] with length 1", calls := [], world := w }

/-- The method `S3Uploader.Upload`; the value returned is the error.  Indexing `tmpPaths[1]`
panics when `s3Path` has no `/`. -/
def Upload {σ : Type} (env : Env σ) (s3Path : String) (fchan : FileInfoT) (w : σ) :
    Step σ (Option String) :=
  let tmpPaths := stringsSplitN2 s3Path
  match tmpPaths[0]?, tmpPaths[1]? with
  | some bucketName, some objPath =>
    match env.Open fchan.filePath w with
    | .error err => { out := .ret (some err), calls := [], world := w }
    | .ok _ =>
      let input : PutObjectInput :=
        { Bucket := bucketName, Key := objPath, Body := fchan.filePath
          ContentType := "application/octet-stream", Metadata := [("md5", fchan.md5)] }
      match env.Upload input w with
      | (.error err, w) => { out := .ret (some err), calls := [.upload input], world := w }
      | (.ok _, w) => { out := .ret none, calls := [.upload input], world := w }
  | _, _ => { out := .panic "index out of range [1] with length 1", calls := [], world := w }

/-! ### The default volume size: `int64(math.Ceil(float64(sizeInBytes) / gbInBytes))` -/

/-- How many low bits a natural number loses when it is rounded to the 53-bit significand of a
`float64`: the least `e` with `n / 2^e < 2^53`. -/
def float64Shift : Nat → Nat → Nat
  | 0, _ => 0
  | fuel + 1, n => if n < 2 ^ 53 then 0 else 1 + float64Shift fuel (n / 2)

/-- The value of `float64(n)` for a natural number `n < 2^64`: the nearest number with a 53-bit
significand, ties to the even significand (IEEE 754 round-to-nearest-even). -/
def float64OfNat (n : Nat) : Nat :=
  let e := float64Shift 64 n
  let q := n / 2 ^ e
  let r := n % 2 ^ e
  if 2 * r < 2 ^ e then q * 2 ^ e
  else if 2 ^ e < 2 * r then (q + 1) * 2 ^ e
  else if q % 2 = 0 then q * 2 ^ e
  else (q + 1) * 2 ^ e

/-- The value of `float64(x)` for an `int64` `x`; rounding is symmetric in the sign. -/
def float64OfInt64 (x : Int) : Int :=
  if x < 0 then -((float64OfNat x.natAbs : Nat) : Int) else ((float64OfNat x.toNat : Nat) : Int)

/-- The constant `gbInBytes = 1 << 30`. -/
def gbInBytes : Int := 2 ^ 30

/-- The value of `int64(math.Ceil(x / gbInBytes))` for a `float64` `x` that holds an integer of
magnitude below `2^64`: dividing by a power of two is exact in `float64`, `math.Ceil` is exact,
and the result fits an `int64`, so this is the ceiling of the exact quotient. -/
def ceilDivGB (x : Int) : Int := -((-x) / gbInBytes)

/-- Lines 99-104 of `Create`: the volume size handed to `generateManifest`. -/
def volumeSizeGBFor (configured sizeInBytes : Int) : Int :=
  if configured = 0 then
    -- default to size of image if VolumeSize is not provided
    ceilDivGB (float64OfInt64 sizeInBytes)
  else configured

/-! ### The manifest -/

/-- The method `generateManifest`: three presigned requests for the image object, then
`manifests.New`. -/
def generateManifest {σ : Type} (env : Env σ) (bucketName keyName : String)
    (sizeInBytes volumeSizeGB : Int) (fileFormat : String) :
    Except String manifests.ImportVolumeManifest × List Effect :=
  match env.PresignGetObject bucketName keyName with
  | .error err =>
    (.error ("failed to sign request: " ++ err), [.presignGetObject bucketName keyName])
  | .ok presignedGetURL =>
    match env.PresignHeadObject bucketName keyName with
    | .error err =>
      (.error ("failed to sign request: " ++ err),
        [.presignGetObject bucketName keyName, .presignHeadObject bucketName keyName])
    | .ok presignedHeadURL =>
      match env.PresignDeleteObject bucketName keyName with
      | .error err =>
        (.error ("failed to sign request: " ++ err),
          [.presignGetObject bucketName keyName, .presignHeadObject bucketName keyName,
           .presignDeleteObject bucketName keyName])
      | .ok presignedDeleteURL =>
        let imageProps : manifests.MachineImageProperties :=
          { KeyName := keyName
            HeadURL := presignedHeadURL
            GetURL := presignedGetURL
            DeleteURL := presignedDeleteURL
            SizeBytes := sizeInBytes
            VolumeSizeGB := volumeSizeGB
            FileFormat := fileFormat }
        (.ok (manifests.New imageProps),
          [.presignGetObject bucketName keyName, .presignHeadObject bucketName keyName,
           .presignDeleteObject bucketName keyName])

/-- What `uploadManifest` leaves behind: the URL and the error it returns, and the manifest
`m`, which it updates through the pointer. -/
structure ManifestUpload where
  url : String
  err : Option String
  m : manifests.ImportVolumeManifest

/-- The method `uploadManifest`.  The parameter `serverSideEncryption` is not used by the source. -/
def uploadManifest {σ : Type} (env : Env σ) (bucketName bucketFolder imgBaseName : String)
    (m : manifests.ImportVolumeManifest) (w : σ) : Step σ ManifestUpload :=
  let fileName := imgBaseName ++ "-manifest"
  let manifestKey := pathJoin bucketFolder fileName
  let s3Path := pathJoin bucketName manifestKey
  -- create presigned GET request for the manifest
  match env.PresignGetObject bucketName manifestKey with
  | .error err =>
    { out := .ret
        { url := "", err := some ("ERROR: not sign manifest GET request: " ++ err), m := m }
      calls := [.presignGetObject bucketName manifestKey], world := w }
  | .ok manifestGetURL =>
    -- create presigned DELETE request for the manifest
    match env.PresignDeleteObject bucketName manifestKey with
    | .error err =>
      { out := .ret
          { url := "", err := some ("failed to sign manifest delete request: " ++ err), m := m }
        calls := [.presignGetObject bucketName manifestKey,
                  .presignDeleteObject bucketName manifestKey]
        world := w }
    | .ok manifestDeleteURL =>
      let m := { m with SelfDestructURL := manifestDeleteURL }
      let signed : List Effect :=
        [.presignGetObject bucketName manifestKey, .presignDeleteObject bucketName manifestKey]
      match env.Marshal m with
      | .error err =>
        { out := .ret
            { url := "", err := some ("serializing machine image manifest: " ++ err), m := m }
          calls := signed, world := w }
      | .ok manifestBytes =>
        match env.WriteFile fileName manifestBytes w with
        | (some err, w) =>
          { out := .ret { url := "", err := some err, m := m }
            calls := signed ++ [.writeFile fileName manifestBytes], world := w }
        | (none, w) =>
          match GetFileInfo env fileName w with
          | .panic msg =>
            { out := .panic msg, calls := signed ++ [.writeFile fileName manifestBytes]
              world := w }
          | .ret (_, some err) =>
            { out := .ret { url := "", err := some err, m := m }
              calls := signed ++ [.writeFile fileName manifestBytes], world := w }
          | .ret (finfo, none) =>
            let up := Upload env s3Path finfo w
            match up.out with
            | .panic msg =>
              { out := .panic msg
                calls := signed ++ [.writeFile fileName manifestBytes] ++ up.calls
                world := up.world }
            | .ret (some err) =>
              { out := .ret { url := manifestGetURL, err := some err, m := m }
                calls := signed ++ [.writeFile fileName manifestBytes] ++ up.calls
                world := up.world }
            | .ret none =>
              { out := .ret { url := manifestGetURL, err := none, m := m }
                calls := signed ++ [.writeFile fileName manifestBytes] ++ up.calls
                world := up.world }

/-- Lines 88-119 of `Create`: read the object back, derive the volume size, generate and upload
the manifest, and build the machine image.  `cs` are the requests made so far. -/
def createManifest {σ : Type} (env : Env σ) (driverConfig : MachineImageDriverConfig)
    (imageBaseName keyName : String) (cs : List Effect) (w : σ) :
    Step σ (MachineImage × Option String) :=
  let cs := cs ++ [.headObject driverConfig.BucketName keyName]
  match env.HeadObject driverConfig.BucketName keyName w with
  | .error err =>
    { out := .ret ({ GetURL := "", DeleteURLs := [] },
        some ("fetching properties for uploaded machine image: " ++ keyName ++ " in bucket: "
          ++ driverConfig.BucketName ++ ": " ++ err))
      calls := cs, world := w }
  | .ok headReqOutput =>
    let sizeInBytes := headReqOutput.ContentLength
    let volumeSizeGB := volumeSizeGBFor driverConfig.VolumeSizeGB sizeInBytes
    match generateManifest env driverConfig.BucketName keyName sizeInBytes volumeSizeGB
        driverConfig.FileFormat with
    | (.error err, gcs) =>
      { out := .ret ({ GetURL := "", DeleteURLs := [] },
          some ("FAILED to generate machine image manifest: " ++ err))
        calls := cs ++ gcs, world := w }
    | (.ok m, gcs) =>
      let um := uploadManifest env driverConfig.BucketName driverConfig.BucketFolder
        imageBaseName m w
      match um.out with
      | .panic msg => { out := .panic msg, calls := cs ++ gcs ++ um.calls, world := um.world }
      | .ret { url := _, err := some err, m := _ } =>
        { out := .ret ({ GetURL := "", DeleteURLs := [] }, some err)
          calls := cs ++ gcs ++ um.calls, world := um.world }
      | .ret { url := manifestURL, err := none, m := m } =>
        let machineImage : MachineImage :=
          { GetURL := manifestURL
            DeleteURLs := [m.SelfDestructURL, m.Parts.Part.DeleteURL] }
        { out := .ret (machineImage, none), calls := cs ++ gcs ++ um.calls, world := um.world }

/-- The method `SDKCreateMachineImageManifestDriverGen2.Create`.  The log lines (with their
wall-clock durations) are left out. -/
def Create {σ : Type} (env : Env σ) (driverConfig : MachineImageDriverConfig) (w : σ) :
    Step σ (MachineImage × Option String) :=
  match GetFileInfo env driverConfig.MachineImagePath w with
  | .panic msg => { out := .panic msg, calls := [], world := w }
  | .ret (_, some err) =>
    { out := .ret ({ GetURL := "", DeleteURLs := [] }, some err), calls := [], world := w }
  | .ret (finfo, none) =>
    let imageBaseName := filepathBase driverConfig.MachineImagePath
    let keyName := pathJoin driverConfig.BucketFolder imageBaseName
    let s3Path := pathJoin driverConfig.BucketName keyName
    let probe := LocalfileInS3 env s3Path finfo w
    match probe.out with
    | .panic msg => { out := .panic msg, calls := probe.calls, world := probe.world }
    | .ret true => createManifest env driverConfig imageBaseName keyName probe.calls probe.world
    | .ret false =>
      let up := Upload env s3Path finfo probe.world
      match up.out with
      | .panic msg =>
        { out := .panic msg, calls := probe.calls ++ up.calls, world := up.world }
      | .ret (some err) =>
        { out := .ret ({ GetURL := "", DeleteURLs := [] }, some err)
          calls := probe.calls ++ up.calls, world := up.world }
      | .ret none =>
        createManifest env driverConfig imageBaseName keyName (probe.calls ++ up.calls) up.world

/-- The key of the image object, `keyName` in `Create`. -/
def imageKey (driverConfig : MachineImageDriverConfig) : String :=
  pathJoin driverConfig.BucketFolder (filepathBase driverConfig.MachineImagePath)

/-- The `s3Path` that `Create` hands to `LocalfileInS3` and `Upload`. -/
def imageS3Path (driverConfig : MachineImageDriverConfig) : String :=
  pathJoin driverConfig.BucketName (imageKey driverConfig)

/-- The key of the manifest object, `manifestKey` in `uploadManifest`. -/
def manifestKey (driverConfig : MachineImageDriverConfig) : String :=
  pathJoin driverConfig.BucketFolder (filepathBase driverConfig.MachineImagePath ++ "-manifest")

/-! ### A concrete file system and object store used to exercise the driver -/

/-- The example world: the objects in the store, by bucket and key. -/
abbrev ExampleStore : Type := List ((String × String) × HeadObjectOutput)

/-- A fake environment.  `root.img` is a readable file of five bytes, `root.img-manifest` a
readable file of two bytes, `/data` a directory (it opens, but reading it fails); nothing else
exists.  The digest is a stand-in that spells out the bytes.  The store keeps what is uploaded
and signing always succeeds. -/
def exampleEnv : Env ExampleStore :=
  { Open := fun path _ =>
      if path = "root.img" then
        .ok { stat := .ok 5, read := .ok [1, 2, 3, 4, 5] }
      else if path = "root.img-manifest" then
        .ok { stat := .ok 2, read := .ok [60, 62] }
      else if path = "/data" then
        .ok { stat := .ok 4096, read := .error "read /data: is a directory" }
      else .error ("open " ++ path ++ ": no such file or directory")
    md5hex := fun bytes => String.join (bytes.map fun b => (Nat.toDigits 16 b).asString)
    HeadObject := fun bucket key w =>
      match w.lookup (bucket, key) with
      | some head => .ok head
      | none => .error "NotFound"
    Upload := fun input w =>
      (.ok (),
        ((input.Bucket, input.Key),
          { Metadata := input.Metadata
            ContentLength := if input.Body = "root.img" then 5 else 2 }) :: w)
    PresignGetObject := fun bucket key => .ok ("GET https://" ++ bucket ++ "/" ++ key)
    PresignHeadObject := fun bucket key => .ok ("HEAD https://" ++ bucket ++ "/" ++ key)
    PresignDeleteObject := fun bucket key => .ok ("DELETE https://" ++ bucket ++ "/" ++ key)
    Marshal := fun _ => .ok [60, 62]
    WriteFile := fun _ _ w => (none, w) }

/-- A driver configuration for the examples. -/
def exampleDriverConfig : MachineImageDriverConfig :=
  { MachineImagePath := "root.img", BucketName := "bkt", BucketFolder := "dir"
    ServerSideEncryption := "", FileFormat := "RAW", VolumeSizeGB := 0 }

/-- The fingerprint of `root.img` in the example environment. -/
def exampleFileInfo : FileInfoT := { filePath := "root.img", size := 5, md5 := "12345" }

/-- A store that already holds the image with the matching hash tag. -/
def exampleStoreWithImage : ExampleStore :=
  [(("bkt", "dir/root.img"), { Metadata := [("md5", "12345")], ContentLength := 5 })]

end driver

end LightStemcell

/-! # Properties -/

namespace LightStemcell

namespace publisher

open resources

/-! ## The deferred deletes leave the return values alone -/

theorem deferDeleteVolume_amis {σ : Type} (ds : IsolatedRegionDriverSet σ) (v : Volume)
    (r : Run σ) : (deferDeleteVolume ds v r).amis = r.amis := by
  unfold deferDeleteVolume; split <;> rfl

theorem deferDeleteVolume_err {σ : Type} (ds : IsolatedRegionDriverSet σ) (v : Volume)
    (r : Run σ) : (deferDeleteVolume ds v r).err = r.err := by
  unfold deferDeleteVolume; split <;> rfl

theorem deferDeleteVolume_calls {σ : Type} (ds : IsolatedRegionDriverSet σ) (v : Volume)
    (r : Run σ) : (deferDeleteVolume ds v r).calls = r.calls ++ [Call.volumeDelete v] := by
  unfold deferDeleteVolume; split <;> rfl

theorem deferDeleteMachineImage_amis {σ : Type} (p : IsolatedRegionPublisher)
    (ds : IsolatedRegionDriverSet σ) (mi : MachineImage) (r : Run σ) :
    (deferDeleteMachineImage p ds mi r).amis = r.amis := by
  unfold deferDeleteMachineImage; split
  · split <;> rfl
  · rfl

theorem deferDeleteMachineImage_err {σ : Type} (p : IsolatedRegionPublisher)
    (ds : IsolatedRegionDriverSet σ) (mi : MachineImage) (r : Run σ) :
    (deferDeleteMachineImage p ds mi r).err = r.err := by
  unfold deferDeleteMachineImage; split
  · split <;> rfl
  · rfl

theorem deferDeleteMachineImage_calls {σ : Type} (p : IsolatedRegionPublisher)
    (ds : IsolatedRegionDriverSet σ) (mi : MachineImage) (r : Run σ) :
    (deferDeleteMachineImage p ds mi r).calls =
      r.calls ++ (if p.KeepImg then [] else [Call.machineImageDelete mi]) := by
  unfold deferDeleteMachineImage
  cases hk : p.KeepImg
  · simp only [Bool.not_false, if_true]
    split <;> simp
  · simp

/-- The calls, the collection and the error of the body of `Publish` after both deferred deletes
are registered do not depend on the two `Delete` methods. -/
theorem publishSnapshotAndAmi_congr {σ : Type} (p : IsolatedRegionPublisher)
    (ds ds2 : IsolatedRegionDriverSet σ) (hs : ds.SnapshotCreate = ds2.SnapshotCreate)
    (ha : ds.AmiCreate = ds2.AmiCreate) (v : Volume) (cs : List Call) (w : σ) :
    publishSnapshotAndAmi p ds v cs w = publishSnapshotAndAmi p ds2 v cs w := by
  unfold publishSnapshotAndAmi
  rw [hs, ha]

/-- The calls of the body of `Publish` from the snapshot stage on: the calls so far, the
snapshot `Create` and, when that succeeded, the AMI `Create`. -/
theorem publishSnapshotAndAmi_calls {σ : Type} (p : IsolatedRegionPublisher)
    (ds : IsolatedRegionDriverSet σ) (v : Volume) (cs : List Call) (w : σ) :
    (publishSnapshotAndAmi p ds v cs w).calls =
      cs ++ Call.snapshotCreate { VolumeID := v.ID } ::
        (match ds.SnapshotCreate { VolumeID := v.ID } w with
         | (.ok snapshot, _) =>
           [Call.amiCreate { SnapshotID := snapshot.ID, AmiProperties := p.AmiProperties }]
         | (.error _, _) => []) := by
  unfold publishSnapshotAndAmi
  rcases hsn : ds.SnapshotCreate { VolumeID := v.ID } w with ⟨_ | snapshot, w2⟩
  · simp [hsn]
  · simp only [hsn]
    rcases ham : ds.AmiCreate { SnapshotID := snapshot.ID, AmiProperties := p.AmiProperties } w2
      with ⟨_ | _, _⟩ <;> simp [ham]

/-- The calls of the body of `Publish` from the volume stage on, the deferred volume delete
included. -/
theorem publishVolume_calls {σ : Type} (p : IsolatedRegionPublisher)
    (ds : IsolatedRegionDriverSet σ) (mi : MachineImage) (cs : List Call) (w : σ) :
    (publishVolume p ds mi cs w).calls =
      cs ++ Call.volumeCreate { MachineImageManifestURL := mi.GetURL } ::
        (match ds.VolumeCreate { MachineImageManifestURL := mi.GetURL } w with
         | (.ok vol, w2) =>
           Call.snapshotCreate { VolumeID := vol.ID } ::
             ((match ds.SnapshotCreate { VolumeID := vol.ID } w2 with
               | (.ok snapshot, _) =>
                 [Call.amiCreate { SnapshotID := snapshot.ID, AmiProperties := p.AmiProperties }]
               | (.error _, _) => []) ++ [Call.volumeDelete vol])
         | (.error _, _) => []) := by
  unfold publishVolume
  rcases hv : ds.VolumeCreate { MachineImageManifestURL := mi.GetURL } w with ⟨_ | vol, w2⟩
  · simp [hv]
  · simp only [hv, deferDeleteVolume_calls, publishSnapshotAndAmi_calls]
    simp

/-- The body of `Publish` from the volume stage on never calls the machine-image `Delete`. -/
theorem publishVolume_no_machineImageDelete {σ : Type} (p : IsolatedRegionPublisher)
    (ds : IsolatedRegionDriverSet σ) (mi : MachineImage) (w : σ)
    (c0 : MachineImageDriverConfig) :
    (publishVolume p ds mi [Call.machineImageCreate c0] w).calls.filter
      Call.isMachineImageDelete = [] := by
  rw [publishVolume_calls]
  rcases hv : ds.VolumeCreate { MachineImageManifestURL := mi.GetURL } w with ⟨_ | vol, w2⟩
  · simp [Call.isMachineImageDelete]
  · rcases hs : ds.SnapshotCreate { VolumeID := vol.ID } w2 with ⟨_ | _, _⟩ <;>
      simp [hs, Call.isMachineImageDelete]

/-- The body of `Publish` from the volume stage on calls the volume `Delete` at most once. -/
theorem publishVolume_volumeDelete_le_one {σ : Type} (p : IsolatedRegionPublisher)
    (ds : IsolatedRegionDriverSet σ) (mi : MachineImage) (w : σ)
    (c0 : MachineImageDriverConfig) :
    ((publishVolume p ds mi [Call.machineImageCreate c0] w).calls.filter
      Call.isVolumeDelete).length ≤ 1 := by
  rw [publishVolume_calls]
  rcases hv : ds.VolumeCreate { MachineImageManifestURL := mi.GetURL } w with ⟨_ | vol, w2⟩
  · simp [Call.isVolumeDelete]
  · rcases hs : ds.SnapshotCreate { VolumeID := vol.ID } w2 with ⟨_ | _, _⟩ <;>
      simp [hs, Call.isVolumeDelete]

/-- The return values of the body of `Publish` from the volume stage on do not depend on the
two `Delete` methods. -/
theorem publishVolume_result_congr {σ : Type} (p : IsolatedRegionPublisher)
    (ds ds2 : IsolatedRegionDriverSet σ) (hv : ds.VolumeCreate = ds2.VolumeCreate)
    (hs : ds.SnapshotCreate = ds2.SnapshotCreate) (ha : ds.AmiCreate = ds2.AmiCreate)
    (mi : MachineImage) (cs : List Call) (w : σ) :
    (publishVolume p ds mi cs w).amis = (publishVolume p ds2 mi cs w).amis
    ∧ (publishVolume p ds mi cs w).err = (publishVolume p ds2 mi cs w).err := by
  unfold publishVolume
  rw [← hv]
  rcases hvc : ds.VolumeCreate { MachineImageManifestURL := mi.GetURL } w with ⟨_ | vol, w2⟩
  · simp only [hvc, and_self]
  · simp only [hvc, deferDeleteVolume_amis, deferDeleteVolume_err,
      publishSnapshotAndAmi_congr p ds ds2 hs ha, and_self]

/-- C1. Rollback when the snapshot stage fails: if the machine-image and the volume `Create`
succeed and the snapshot `Create` returns the error `e`, then `Publish` calls, after the three
`Create`s, the volume driver's `Delete` on the created volume and then, only when `KeepImg` is
false, the machine-image driver's `Delete` on the created machine image; the AMI driver's
`Create` is never called; and `Publish` returns no AMI collection and the error
`"creating snapshot: " ++ e`. -/
theorem publish_snapshot_failure_rolls_back {σ : Type} (p : IsolatedRegionPublisher)
    (ds : IsolatedRegionDriverSet σ) (mic : MachineImageConfig) (w w1 w2 w3 : σ)
    (mi : MachineImage) (vol : Volume) (e : String)
    (hmi : ds.MachineImageCreate (machineImageDriverConfigOf p mic) w = (.ok mi, w1))
    (hvol : ds.VolumeCreate { MachineImageManifestURL := mi.GetURL } w1 = (.ok vol, w2))
    (hsnap : ds.SnapshotCreate { VolumeID := vol.ID } w2 = (.error e, w3)) :
    (Publish p ds mic w).calls =
        [Call.machineImageCreate (machineImageDriverConfigOf p mic),
         Call.volumeCreate { MachineImageManifestURL := mi.GetURL },
         Call.snapshotCreate { VolumeID := vol.ID },
         Call.volumeDelete vol]
        ++ (if p.KeepImg then [] else [Call.machineImageDelete mi])
    ∧ (Publish p ds mic w).calls.filter Call.isDelete =
        Call.volumeDelete vol :: (if p.KeepImg then [] else [Call.machineImageDelete mi])
    ∧ (∀ c ∈ (Publish p ds mic w).calls, c.isAmiCreate = false)
    ∧ (Publish p ds mic w).amis = none
    ∧ (Publish p ds mic w).err = some ("creating snapshot: " ++ e) := by
  have hcalls : (Publish p ds mic w).calls =
        [Call.machineImageCreate (machineImageDriverConfigOf p mic),
         Call.volumeCreate { MachineImageManifestURL := mi.GetURL },
         Call.snapshotCreate { VolumeID := vol.ID },
         Call.volumeDelete vol]
        ++ (if p.KeepImg then [] else [Call.machineImageDelete mi]) := by
    simp only [Publish, hmi, publishVolume, hvol, deferDeleteMachineImage_calls,
      deferDeleteVolume_calls, publishSnapshotAndAmi_calls, hsnap]
    simp
  refine ⟨hcalls, ?_, ?_, ?_, ?_⟩
  · rw [hcalls]; cases p.KeepImg <;> simp [Call.isDelete]
  · rw [hcalls]; cases p.KeepImg <;> simp [Call.isAmiCreate]
  · simp only [Publish, hmi, publishVolume, hvol, deferDeleteMachineImage_amis,
      deferDeleteVolume_amis, publishSnapshotAndAmi, hsnap]
  · simp only [Publish, hmi, publishVolume, hvol, deferDeleteMachineImage_err,
      deferDeleteVolume_err, publishSnapshotAndAmi, hsnap]

/-- Witness for C1: the example drivers with a failing snapshot stage and `KeepImg` false. -/
theorem publish_snapshot_failure_rolls_back_witness :
    (Publish (examplePublisher false) (exampleDrivers true false none none)
        exampleImageConfig ()).calls.filter Call.isDelete =
      [Call.volumeDelete { ID := "vol-1" }, Call.machineImageDelete exampleMachineImage]
    ∧ (Publish (examplePublisher false) (exampleDrivers true false none none)
        exampleImageConfig ()).err = some "creating snapshot: snapshot quota" :=
  have h := publish_snapshot_failure_rolls_back (examplePublisher false)
    (exampleDrivers true false none none) exampleImageConfig () () () ()
    exampleMachineImage { ID := "vol-1" } "snapshot quota" rfl rfl rfl
  ⟨h.2.1, h.2.2.2.2⟩

/-- C2, as stated, fails: with the example drivers and a failing AMI stage, `Publish` does call
`Delete` on the volume driver (and, `KeepImg` being false, on the machine-image driver). -/
theorem publish_ami_failure_no_delete_counterexample :
    (exampleDrivers false true none none).AmiCreate
        { SnapshotID := "snap-1", AmiProperties := (examplePublisher false).AmiProperties } ()
      = (.error "register denied", ())
    ∧ (Publish (examplePublisher false) (exampleDrivers false true none none)
        exampleImageConfig ()).err = some "creating ami: register denied"
    ∧ (Publish (examplePublisher false) (exampleDrivers false true none none)
        exampleImageConfig ()).calls.filter Call.isDelete =
      [Call.volumeDelete { ID := "vol-1" }, Call.machineImageDelete exampleMachineImage]
    ∧ (Publish (examplePublisher true) (exampleDrivers false true none none)
        exampleImageConfig ()).calls.filter Call.isDelete =
      [Call.volumeDelete { ID := "vol-1" }] := by
  refine ⟨rfl, ?_, ?_, ?_⟩ <;> decide

/-- C2, amended. When the machine-image, volume and snapshot `Create` succeed and the AMI
`Create` returns the error `e`, `Publish` returns no AMI collection and the error
`"creating ami: " ++ e`, and its deferred deletes still run: after the four `Create`s it calls
the volume driver's `Delete` on the created volume and then, only when `KeepImg` is false, the
machine-image driver's `Delete` on the created machine image.  The snapshot is not deleted. -/
theorem publish_ami_failure_runs_deferred_deletes {σ : Type} (p : IsolatedRegionPublisher)
    (ds : IsolatedRegionDriverSet σ) (mic : MachineImageConfig) (w w1 w2 w3 w4 : σ)
    (mi : MachineImage) (vol : Volume) (snap : Snapshot) (e : String)
    (hmi : ds.MachineImageCreate (machineImageDriverConfigOf p mic) w = (.ok mi, w1))
    (hvol : ds.VolumeCreate { MachineImageManifestURL := mi.GetURL } w1 = (.ok vol, w2))
    (hsnap : ds.SnapshotCreate { VolumeID := vol.ID } w2 = (.ok snap, w3))
    (hami : ds.AmiCreate { SnapshotID := snap.ID, AmiProperties := p.AmiProperties } w3
      = (.error e, w4)) :
    (Publish p ds mic w).amis = none
    ∧ (Publish p ds mic w).err = some ("creating ami: " ++ e)
    ∧ (Publish p ds mic w).calls =
        [Call.machineImageCreate (machineImageDriverConfigOf p mic),
         Call.volumeCreate { MachineImageManifestURL := mi.GetURL },
         Call.snapshotCreate { VolumeID := vol.ID },
         Call.amiCreate { SnapshotID := snap.ID, AmiProperties := p.AmiProperties },
         Call.volumeDelete vol]
        ++ (if p.KeepImg then [] else [Call.machineImageDelete mi]) := by
  refine ⟨?_, ?_, ?_⟩
  · simp only [Publish, hmi, publishVolume, hvol, deferDeleteMachineImage_amis,
      deferDeleteVolume_amis, publishSnapshotAndAmi, hsnap, hami]
  · simp only [Publish, hmi, publishVolume, hvol, deferDeleteMachineImage_err,
      deferDeleteVolume_err, publishSnapshotAndAmi, hsnap, hami]
  · simp only [Publish, hmi, publishVolume, hvol, deferDeleteMachineImage_calls,
      deferDeleteVolume_calls, publishSnapshotAndAmi_calls, hsnap]
    simp

/-- Witness for the amended C2: the example drivers with a failing AMI stage. -/
theorem publish_ami_failure_runs_deferred_deletes_witness :
    (Publish (examplePublisher true) (exampleDrivers false true none (some "busy"))
        exampleImageConfig ()).err = some "creating ami: register denied"
    ∧ (Publish (examplePublisher true) (exampleDrivers false true none (some "busy"))
        exampleImageConfig ()).calls =
        [Call.machineImageCreate
           (machineImageDriverConfigOf (examplePublisher true) exampleImageConfig),
         Call.volumeCreate { MachineImageManifestURL := exampleMachineImage.GetURL },
         Call.snapshotCreate { VolumeID := "vol-1" },
         Call.amiCreate
           { SnapshotID := "snap-1", AmiProperties := (examplePublisher true).AmiProperties },
         Call.volumeDelete { ID := "vol-1" }] :=
  have h := publish_ami_failure_runs_deferred_deletes (examplePublisher true)
    (exampleDrivers false true none (some "busy")) exampleImageConfig () () () () ()
    exampleMachineImage { ID := "vol-1" } { ID := "snap-1" } "register denied" rfl rfl rfl rfl
  ⟨h.2.1, h.2.2⟩

/-- C3, as stated, fails: on a fully successful run with `KeepImg` false the volume is deleted
first and the machine image second, not the other way round. -/
theorem publish_success_delete_order_counterexample :
    (Publish (examplePublisher false) (exampleDrivers false false none none)
        exampleImageConfig ()).err = none
    ∧ (Publish (examplePublisher false) (exampleDrivers false false none none)
        exampleImageConfig ()).calls.filter Call.isDelete
      ≠ [Call.machineImageDelete exampleMachineImage, Call.volumeDelete { ID := "vol-1" }]
    ∧ (Publish (examplePublisher false) (exampleDrivers false false none none)
        exampleImageConfig ()).calls.filter Call.isDelete
      = [Call.volumeDelete { ID := "vol-1" }, Call.machineImageDelete exampleMachineImage] := by
  refine ⟨?_, ?_, ?_⟩ <;> decide

/-- C3, amended. When all four `Create` stages succeed, `Publish` makes exactly these calls: the
four `Create`s, then the volume driver's `Delete` on the created volume (always), then the
machine-image driver's `Delete` on the created machine image (only when `KeepImg` is false).
So the volume is deleted strictly before the machine image, and no delete is issued for the
snapshot or the registered AMI, which is returned in the collection. -/
theorem publish_success_deletes_volume_then_image {σ : Type} (p : IsolatedRegionPublisher)
    (ds : IsolatedRegionDriverSet σ) (mic : MachineImageConfig) (w w1 w2 w3 w4 : σ)
    (mi : MachineImage) (vol : Volume) (snap : Snapshot) (ami : Ami)
    (hmi : ds.MachineImageCreate (machineImageDriverConfigOf p mic) w = (.ok mi, w1))
    (hvol : ds.VolumeCreate { MachineImageManifestURL := mi.GetURL } w1 = (.ok vol, w2))
    (hsnap : ds.SnapshotCreate { VolumeID := vol.ID } w2 = (.ok snap, w3))
    (hami : ds.AmiCreate { SnapshotID := snap.ID, AmiProperties := p.AmiProperties } w3
      = (.ok ami, w4)) :
    (Publish p ds mic w).calls =
        [Call.machineImageCreate (machineImageDriverConfigOf p mic),
         Call.volumeCreate { MachineImageManifestURL := mi.GetURL },
         Call.snapshotCreate { VolumeID := vol.ID },
         Call.amiCreate { SnapshotID := snap.ID, AmiProperties := p.AmiProperties },
         Call.volumeDelete vol]
        ++ (if p.KeepImg then [] else [Call.machineImageDelete mi])
    ∧ (Publish p ds mic w).calls.filter Call.isDelete =
        Call.volumeDelete vol :: (if p.KeepImg then [] else [Call.machineImageDelete mi])
    ∧ (Publish p ds mic w).err = none
    ∧ (Publish p ds mic w).amis =
        some (collection.Ami.Add
          { VirtualizationType := p.AmiProperties.VirtualizationType } ami) := by
  have hcalls : (Publish p ds mic w).calls =
        [Call.machineImageCreate (machineImageDriverConfigOf p mic),
         Call.volumeCreate { MachineImageManifestURL := mi.GetURL },
         Call.snapshotCreate { VolumeID := vol.ID },
         Call.amiCreate { SnapshotID := snap.ID, AmiProperties := p.AmiProperties },
         Call.volumeDelete vol]
        ++ (if p.KeepImg then [] else [Call.machineImageDelete mi]) := by
    simp only [Publish, hmi, publishVolume, hvol, deferDeleteMachineImage_calls,
      deferDeleteVolume_calls, publishSnapshotAndAmi_calls, hsnap]
    simp
  refine ⟨hcalls, ?_, ?_, ?_⟩
  · rw [hcalls]; cases p.KeepImg <;> simp [Call.isDelete]
  · simp only [Publish, hmi, publishVolume, hvol, deferDeleteMachineImage_err,
      deferDeleteVolume_err, publishSnapshotAndAmi, hsnap, hami]
  · simp only [Publish, hmi, publishVolume, hvol, deferDeleteMachineImage_amis,
      deferDeleteVolume_amis, publishSnapshotAndAmi, hsnap, hami]

/-- Witness for the amended C3: the example drivers, every stage succeeding. -/
theorem publish_success_deletes_volume_then_image_witness :
    (Publish (examplePublisher false) (exampleDrivers false false none none)
        exampleImageConfig ()).calls.filter Call.isDelete =
      [Call.volumeDelete { ID := "vol-1" }, Call.machineImageDelete exampleMachineImage]
    ∧ (Publish (examplePublisher false) (exampleDrivers false false none none)
        exampleImageConfig ()).amis
      = some (collection.Ami.Add { VirtualizationType := "hvm" } { ID := "ami-1" }) :=
  have h := publish_success_deletes_volume_then_image (examplePublisher false)
    (exampleDrivers false false none none) exampleImageConfig () () () () ()
    exampleMachineImage { ID := "vol-1" } { ID := "snap-1" } { ID := "ami-1" } rfl rfl rfl rfl
  ⟨h.2.1, h.2.2.2⟩

/-- C4. Retain-image flag: whatever the volume, snapshot and AMI stages and the deletes do,
the machine-image driver's `Delete` is called zero times when the machine-image `Create`
failed or `KeepImg` is true, and exactly once, on the machine image that `Create` returned,
when the machine-image `Create` succeeded and `KeepImg` is false. -/
theorem publish_machineImageDelete_count {σ : Type} (p : IsolatedRegionPublisher)
    (ds : IsolatedRegionDriverSet σ) (mic : MachineImageConfig) (w : σ) :
    (∀ e w1, ds.MachineImageCreate (machineImageDriverConfigOf p mic) w = (.error e, w1) →
        (Publish p ds mic w).calls.filter Call.isMachineImageDelete = [])
    ∧ (p.KeepImg = true →
        (Publish p ds mic w).calls.filter Call.isMachineImageDelete = [])
    ∧ (∀ mi w1, ds.MachineImageCreate (machineImageDriverConfigOf p mic) w = (.ok mi, w1) →
        p.KeepImg = false →
        (Publish p ds mic w).calls.filter Call.isMachineImageDelete
          = [Call.machineImageDelete mi]
        ∧ ((Publish p ds mic w).calls.filter Call.isMachineImageDelete).length = 1) := by
  refine ⟨?_, ?_, ?_⟩
  · intro e w1 h
    simp [Publish, h, Call.isMachineImageDelete]
  · intro hk
    rcases h : ds.MachineImageCreate (machineImageDriverConfigOf p mic) w with ⟨e | mi, w1⟩
    · simp [Publish, h, Call.isMachineImageDelete]
    · simp only [Publish, h, deferDeleteMachineImage_calls, hk, if_true, List.append_nil]
      exact publishVolume_no_machineImageDelete p ds mi w1 _
  · intro mi w1 h hk
    have hc : (Publish p ds mic w).calls.filter Call.isMachineImageDelete
        = [Call.machineImageDelete mi] := by
      simp only [Publish, h, deferDeleteMachineImage_calls, hk, List.filter_append,
        publishVolume_no_machineImageDelete p ds mi w1 _]
      simp [Call.isMachineImageDelete]
    exact ⟨hc, by rw [hc]; rfl⟩

/-- Witness for C4: with the example drivers the machine image is deleted once when `KeepImg`
is false, and not at all when it is true, also when a later stage fails. -/
theorem publish_machineImageDelete_count_witness :
    (Publish (examplePublisher false) (exampleDrivers true false none none)
        exampleImageConfig ()).calls.filter Call.isMachineImageDelete
          = [Call.machineImageDelete exampleMachineImage]
    ∧ (Publish (examplePublisher true) (exampleDrivers false true none none)
        exampleImageConfig ()).calls.filter Call.isMachineImageDelete = [] :=
  ⟨((publish_machineImageDelete_count (examplePublisher false)
      (exampleDrivers true false none none) exampleImageConfig ()).2.2
      exampleMachineImage () rfl rfl).1,
   (publish_machineImageDelete_count (examplePublisher true)
      (exampleDrivers false true none none) exampleImageConfig ()).2.1 rfl⟩

/-- C5. Cleanup failures never mask the primary result: two runs of `Publish` with the same
`Create` methods, started in the same world, and with arbitrary, possibly different, `Delete`
methods (each free to return nil or an error) return the same AMI collection and the same
error; and in each run the machine-image `Delete` and the volume `Delete` are each called at
most once. -/
theorem publish_result_independent_of_deletes {σ : Type} (p : IsolatedRegionPublisher)
    (ds : IsolatedRegionDriverSet σ) (mic : MachineImageConfig) (w : σ)
    (miDel miDel2 : MachineImage → σ → Option String × σ)
    (volDel volDel2 : Volume → σ → Option String × σ) :
    (Publish p { ds with MachineImageDelete := miDel, VolumeDelete := volDel } mic w).amis
      = (Publish p { ds with MachineImageDelete := miDel2, VolumeDelete := volDel2 } mic w).amis
    ∧ (Publish p { ds with MachineImageDelete := miDel, VolumeDelete := volDel } mic w).err
      = (Publish p { ds with MachineImageDelete := miDel2, VolumeDelete := volDel2 } mic w).err
    ∧ ((Publish p { ds with MachineImageDelete := miDel, VolumeDelete := volDel } mic w).calls.filter
        Call.isMachineImageDelete).length ≤ 1
    ∧ ((Publish p { ds with MachineImageDelete := miDel, VolumeDelete := volDel } mic w).calls.filter
        Call.isVolumeDelete).length ≤ 1 := by
  rcases h : ds.MachineImageCreate (machineImageDriverConfigOf p mic) w with ⟨e | mi, w1⟩
  · simp [Publish, h, Call.isMachineImageDelete, Call.isVolumeDelete]
  · have hc := publishVolume_result_congr p
      { ds with MachineImageDelete := miDel, VolumeDelete := volDel }
      { ds with MachineImageDelete := miDel2, VolumeDelete := volDel2 } rfl rfl rfl mi
      [Call.machineImageCreate (machineImageDriverConfigOf p mic)] w1
    refine ⟨?_, ?_, ?_, ?_⟩
    · simp only [Publish, h, deferDeleteMachineImage_amis]; exact hc.1
    · simp only [Publish, h, deferDeleteMachineImage_err]; exact hc.2
    · simp only [Publish, h, deferDeleteMachineImage_calls, List.filter_append,
        publishVolume_no_machineImageDelete]
      cases p.KeepImg <;> simp [Call.isMachineImageDelete]
    · simp only [Publish, h, deferDeleteMachineImage_calls, List.filter_append,
        List.length_append]
      have := publishVolume_volumeDelete_le_one p
        { ds with MachineImageDelete := miDel, VolumeDelete := volDel } mi w1
        (machineImageDriverConfigOf p mic)
      cases p.KeepImg <;> simp [Call.isVolumeDelete] <;> exact this

end publisher

end LightStemcell

namespace LightStemcell
namespace driver
open resources

/-- Up to `2^53` every natural number is a `float64`: the conversion is exact. -/
theorem float64OfNat_exact (n : Nat) (h : n ≤ 2 ^ 53) : float64OfNat n = n := by
  rcases Nat.lt_or_eq_of_le h with hlt | heq
  · have hs : float64Shift 64 n = 0 := by
      have h2 : n < 9007199254740992 := by norm_num at hlt; exact hlt
      simp [float64Shift, h2]
    simp [float64OfNat, hs, Nat.mod_one]
  · subst heq; decide

/-- C6, as stated, fails: for the object size `S = 2^53 + 1` the conversion `float64(S)` rounds
down to `2^53`, the derived volume size is `2^23`, and `2^23` gigabytes are fewer bytes than
`S`; the exact ceiling would be `2^23 + 1`. -/
theorem volumeSizeGB_default_counterexample :
    (0 : Int) ≤ 2 ^ 53 + 1 ∧ (2 ^ 53 + 1 : Int) < 2 ^ 63
    ∧ float64OfInt64 (2 ^ 53 + 1) = 2 ^ 53
    ∧ volumeSizeGBFor 0 (2 ^ 53 + 1) = 2 ^ 23
    ∧ volumeSizeGBFor 0 (2 ^ 53 + 1) * 2 ^ 30 < 2 ^ 53 + 1 := by
  refine ⟨?_, ?_, ?_, ?_, ?_⟩ <;> decide

/-- C6, amended. For every object size `0 ≤ S ≤ 2^53` and a configured volume size of 0, the
volume size `Create` hands to `generateManifest` is the exact ceiling of `S / 2^30`: it is the
least `v` with `v * 2^30 ≥ S`, so the declared volume is never smaller than the image; in
particular `S = 2^30 + 1` gives 2 and `S = 2^30` gives 1. -/
theorem volumeSizeGB_default_exact (S : Int) (h0 : 0 ≤ S) (h1 : S ≤ 2 ^ 53) :
    S ≤ volumeSizeGBFor 0 S * 2 ^ 30
    ∧ (volumeSizeGBFor 0 S - 1) * 2 ^ 30 < S
    ∧ volumeSizeGBFor 0 S = ⌈(S : ℚ) / 2 ^ 30⌉
    ∧ volumeSizeGBFor 0 (2 ^ 30 + 1) = 2
    ∧ volumeSizeGBFor 0 (2 ^ 30) = 1 := by
  have hf : float64OfInt64 S = S := by
    unfold float64OfInt64
    rw [if_neg (not_lt.mpr h0), float64OfNat_exact]
    · exact Int.toNat_of_nonneg h0
    · have : ((S.toNat : Nat) : Int) ≤ ((2 ^ 53 : Nat) : Int) := by
        rw [Int.toNat_of_nonneg h0]; exact_mod_cast h1
      exact_mod_cast this
  have hv : volumeSizeGBFor 0 S = -((-S) / 1073741824) := by
    simp only [volumeSizeGBFor, if_true, ceilDivGB, hf, gbInBytes]
    norm_num
  have hpow : (2 : Int) ^ 30 = 1073741824 := by norm_num
  have hlo : S ≤ volumeSizeGBFor 0 S * 2 ^ 30 := by rw [hv, hpow]; omega
  have hhi : (volumeSizeGBFor 0 S - 1) * 2 ^ 30 < S := by rw [hv, hpow]; omega
  refine ⟨hlo, hhi, ?_, by decide, by decide⟩
  symm
  rw [Int.ceil_eq_iff]
  have hq : (0 : ℚ) < 2 ^ 30 := by positivity
  constructor
  · rw [lt_div_iff₀ hq]
    have : (((volumeSizeGBFor 0 S - 1) * 2 ^ 30 : Int) : ℚ) < (S : ℚ) := by exact_mod_cast hhi
    push_cast at this
    exact this
  · rw [div_le_iff₀ hq]
    have : ((S : Int) : ℚ) ≤ ((volumeSizeGBFor 0 S * 2 ^ 30 : Int) : ℚ) := by exact_mod_cast hlo
    push_cast at this
    exact this

/-- Witness for the amended C6 at `S = 2^30 + 1`. -/
theorem volumeSizeGB_default_exact_witness :
    (2 ^ 30 + 1 : Int) ≤ volumeSizeGBFor 0 (2 ^ 30 + 1) * 2 ^ 30
    ∧ volumeSizeGBFor 0 (2 ^ 30 + 1) = 2 :=
  have h := volumeSizeGB_default_exact (2 ^ 30 + 1) (by decide) (by decide)
  ⟨h.1, h.2.2.2.1⟩

/-- C9: the code at the failing input.  `/data` opens and its size can be read, but reading its
contents fails; `GetFileInfo` returns a nil error together with the empty md5 string. -/
theorem getFileInfo_read_error_is_swallowed :
    (∃ f, exampleEnv.Open "/data" [] = .ok f ∧ f.read = .error "read /data: is a directory")
    ∧ GetFileInfo exampleEnv "/data" []
      = .ret ({ filePath := "/data", size := 4096, md5 := "" }, none) := by
  refine ⟨⟨_, rfl, rfl⟩, by decide⟩

/-- Whenever a file opens, its size can be read and reading its contents fails, `GetFileInfo`
returns a nil error and the empty md5 string. -/
theorem getFileInfo_nil_error_on_read_failure {σ : Type} (env : Env σ) (path : String) (w : σ)
    (f : OpenFile) (size : Int) (e : String) (ho : env.Open path w = .ok f)
    (hs : f.stat = .ok size) (hr : f.read = .error e) :
    GetFileInfo env path w = .ret ({ filePath := path, size := size, md5 := "" }, none) := by
  simp [GetFileInfo, ho, hs, getMd5, hr]

end driver
end LightStemcell

/-! ## The Go path functions -/

namespace LightStemcell
namespace gopath

theorem dropWhile_length_le (p : Char → Bool) (l : List Char) :
    (l.dropWhile p).length ≤ l.length := by
  induction l with
  | nil => simp
  | cons a t ih =>
    simp only [List.dropWhile_cons]
    split
    · simp only [List.length_cons]; omega
    · simp

/-- More fuel than the length of the rest changes nothing. -/
theorem cleanLoop_fuel (rooted : Bool) (fuel1 : Nat) :
    ∀ (fuel2 : Nat) (out : List Char) (dd : Nat) (rest : List Char),
      rest.length ≤ fuel1 → rest.length ≤ fuel2 →
      cleanLoop rooted fuel1 out dd rest = cleanLoop rooted fuel2 out dd rest := by
  induction fuel1 with
  | zero =>
    intro fuel2 out dd rest h1 _
    have : rest = [] := List.length_eq_zero.mp (Nat.le_zero.mp h1)
    subst this
    cases fuel2 <;> simp [cleanLoop]
  | succ n ih =>
    intro fuel2 out dd rest h1 h2
    cases fuel2 with
    | zero =>
      have : rest = [] := List.length_eq_zero.mp (Nat.le_zero.mp h2)
      subst this
      simp [cleanLoop]
    | succ m =>
      cases rest with
      | nil => simp [cleanLoop]
      | cons c t =>
        simp only [List.length_cons, Nat.add_le_add_iff_right] at h1 h2
        have ht1 : t.tail.length ≤ n := by simp; omega
        have ht2 : t.tail.length ≤ m := by simp; omega
        simp only [cleanLoop]
        split
        · exact ih m _ _ _ h1 h2
        · split
          · exact ih m _ _ _ h1 h2
          · split
            · split
              · exact ih m _ _ _ ht1 ht2
              · split
                · exact ih m _ _ _ ht1 ht2
                · exact ih m _ _ _ ht1 ht2
            · rename_i hc _ _
              have hd : ((c :: t).dropWhile (fun x => x ≠ '/')).length ≤ t.length := by
                rw [List.dropWhile_cons_of_pos (by simpa using hc)]
                exact dropWhile_length_le _ _
              exact ih m _ _ _ (le_trans hd h1) (le_trans hd h2)

theorem run_nil (rooted : Bool) (st : List Char × Nat) : run rooted st [] = st := by
  simp [run, cleanLoop]

theorem run_slash (rooted : Bool) (st : List Char × Nat) (t : List Char) :
    run rooted st ('/' :: t) = run rooted st t := by
  simp [run, cleanLoop]

/-- The first element of a rest that does not start with `/` is `.` exactly when the loop takes
its `.` case, and then the loop goes on behind it. -/
theorem takeWhile_eq_dot (c : Char) (t : List Char) (hc : c ≠ '/') :
    (c = '.' ∧ (t = [] ∨ t.head? = some '/')) ↔
      (c :: t).takeWhile (fun x => x ≠ '/') = ['.'] := by
  rw [List.takeWhile_cons_of_pos (by simpa using hc)]
  cases t with
  | nil => simp
  | cons a t2 =>
    by_cases ha : a = '/'
    · subst ha; simp
    · simp [List.takeWhile_cons_of_pos, ha]

theorem dropWhile_of_dot (c : Char) (t : List Char) (hc : c ≠ '/')
    (h : t = [] ∨ t.head? = some '/') :
    (c :: t).dropWhile (fun x => x ≠ '/') = t := by
  rw [List.dropWhile_cons_of_pos (by simpa using hc)]
  cases t with
  | nil => simp
  | cons a t2 =>
    have ha : a = '/' := by simpa using h
    subst ha; simp

theorem takeWhile_eq_dotdot (c : Char) (t : List Char) (hc : c ≠ '/') :
    (c = '.' ∧ t.head? = some '.' ∧ (t.tail = [] ∨ t.tail.head? = some '/')) ↔
      (c :: t).takeWhile (fun x => x ≠ '/') = ['.', '.'] := by
  rw [List.takeWhile_cons_of_pos (by simpa using hc)]
  cases t with
  | nil => simp
  | cons a t2 =>
    by_cases ha : a = '/'
    · subst ha; simp
    · rw [List.takeWhile_cons_of_pos (by simpa using ha)]
      cases t2 with
      | nil => simp
      | cons b t3 =>
        by_cases hb : b = '/'
        · subst hb; simp
        · simp [List.takeWhile_cons_of_pos, hb]

theorem dropWhile_of_dotdot (c : Char) (t : List Char) (hc : c ≠ '/')
    (h : t.head? = some '.' ∧ (t.tail = [] ∨ t.tail.head? = some '/')) :
    (c :: t).dropWhile (fun x => x ≠ '/') = t.tail := by
  rw [List.dropWhile_cons_of_pos (by simpa using hc)]
  cases t with
  | nil => simp at h
  | cons a t2 =>
    have ha : a = '.' := by simpa using h.1
    subst ha
    rw [List.dropWhile_cons_of_pos (by decide)]
    cases t2 with
    | nil => simp
    | cons b t3 =>
      have hb : b = '/' := by simpa using h.2
      subst hb; simp

/-- One round of the loop of `path.Clean` on a rest that does not start with `/`: the first
element is handled by `elemStep` and the loop goes on behind it. -/
theorem run_elem (rooted : Bool) (st : List Char × Nat) (c : Char) (t : List Char)
    (hc : c ≠ '/') :
    run rooted st (c :: t) =
      run rooted (elemStep rooted st ((c :: t).takeWhile (fun x => x ≠ '/')))
        ((c :: t).dropWhile (fun x => x ≠ '/')) := by
  have hlen : ((c :: t).dropWhile (fun x => x ≠ '/')).length ≤ t.length := by
    rw [List.dropWhile_cons_of_pos (by simpa using hc)]
    exact dropWhile_length_le _ _
  have htl : t.tail.length ≤ t.length := by simp
  unfold run elemStep
  simp only [List.length_cons, cleanLoop, if_neg hc]
  by_cases h1 : c = '.' ∧ (t = [] ∨ t.head? = some '/')
  · rw [if_pos h1, if_pos ((takeWhile_eq_dot c t hc).mp h1), dropWhile_of_dot c t hc h1.2]
  · have h1n := (not_congr (takeWhile_eq_dot c t hc)).mp h1
    rw [if_neg h1, if_neg h1n]
    by_cases h2 : c = '.' ∧ t.head? = some '.' ∧ (t.tail = [] ∨ t.tail.head? = some '/')
    · rw [if_pos h2, if_pos ((takeWhile_eq_dotdot c t hc).mp h2),
        dropWhile_of_dotdot c t hc h2.2]
      split
      · exact cleanLoop_fuel rooted _ _ _ _ _ htl (le_refl _)
      · split
        · exact cleanLoop_fuel rooted _ _ _ _ _ htl (le_refl _)
        · exact cleanLoop_fuel rooted _ _ _ _ _ htl (le_refl _)
    · have h2n := (not_congr (takeWhile_eq_dotdot c t hc)).mp h2
      rw [if_neg h2, if_neg h2n]
      exact cleanLoop_fuel rooted _ _ _ _ _ hlen (le_refl _)

theorem takeWhile_append_slash (Q R : List Char) :
    (Q ++ '/' :: R).takeWhile (fun x => x ≠ '/') = Q.takeWhile (fun x => x ≠ '/') := by
  induction Q with
  | nil => simp
  | cons a t ih =>
    by_cases ha : a = '/'
    · subst ha; simp
    · simp only [List.cons_append]
      rw [List.takeWhile_cons_of_pos (by simpa using ha),
        List.takeWhile_cons_of_pos (by simpa using ha), ih]

theorem dropWhile_append_slash (Q R : List Char) :
    (Q ++ '/' :: R).dropWhile (fun x => x ≠ '/')
      = Q.dropWhile (fun x => x ≠ '/') ++ '/' :: R := by
  induction Q with
  | nil => simp
  | cons a t ih =>
    by_cases ha : a = '/'
    · subst ha; simp
    · simp only [List.cons_append]
      rw [List.dropWhile_cons_of_pos (by simpa using ha),
        List.dropWhile_cons_of_pos (by simpa using ha), ih]

/-- The loop of `path.Clean` handles what stands before a `/` without looking behind it: running
it on `Q ++ "/" ++ R` is running it on `Q` and then, from the state reached, on `R`. -/
theorem run_append_slash (rooted : Bool) (n : Nat) :
    ∀ (Q : List Char), Q.length ≤ n → ∀ (st : List Char × Nat) (R : List Char),
      run rooted st (Q ++ '/' :: R) = run rooted (run rooted st Q) R := by
  induction n with
  | zero =>
    intro Q hQ st R
    have : Q = [] := List.length_eq_zero.mp (Nat.le_zero.mp hQ)
    subst this
    simp [run_slash, run_nil]
  | succ n ih =>
    intro Q hQ st R
    cases Q with
    | nil => simp [run_slash, run_nil]
    | cons c t =>
      simp only [List.length_cons, Nat.add_le_add_iff_right] at hQ
      by_cases hc : c = '/'
      · subst hc
        simp only [List.cons_append, run_slash]
        exact ih t hQ st R
      · have hlen : ((c :: t).dropWhile (fun x => x ≠ '/')).length ≤ n := by
          rw [List.dropWhile_cons_of_pos (by simpa using hc)]
          exact le_trans (dropWhile_length_le _ _) hQ
        have e1 := run_elem rooted st c (t ++ '/' :: R) hc
        rw [← List.cons_append, takeWhile_append_slash, dropWhile_append_slash] at e1
        rw [e1, ih _ hlen, ← run_elem rooted st c t hc]

theorem takeWhile_of_not_mem (L : List Char) (h : '/' ∉ L) :
    L.takeWhile (fun x => x ≠ '/') = L := by
  rw [List.takeWhile_eq_self_iff]
  intro a ha
  have : a ≠ '/' := fun e => h (e ▸ ha)
  simpa using this

theorem dropWhile_of_not_mem (L : List Char) (h : '/' ∉ L) :
    L.dropWhile (fun x => x ≠ '/') = [] := by
  rw [List.dropWhile_eq_nil_iff]
  intro a ha
  have : a ≠ '/' := fun e => h (e ▸ ha)
  simpa using this

/-- On a rest without `/` the loop makes one round. -/
theorem run_noslash (rooted : Bool) (st : List Char × Nat) (L : List Char) (hL : '/' ∉ L)
    (hne : L ≠ []) : run rooted st L = elemStep rooted st L := by
  cases L with
  | nil => exact absurd rfl hne
  | cons c t =>
    have hc : c ≠ '/' := fun e => hL (e ▸ List.mem_cons_self _ _)
    rw [run_elem rooted st c t hc, takeWhile_of_not_mem _ hL, dropWhile_of_not_mem _ hL, run_nil]

/-- Every path is free of `/` or ends in a `/` followed by a stretch free of `/`. -/
theorem exists_last_element (J : List Char) :
    '/' ∉ J ∨ ∃ Q L, J = Q ++ '/' :: L ∧ '/' ∉ L := by
  induction J with
  | nil => left; simp
  | cons c t ih =>
    rcases ih with h | ⟨Q, L, hJ, hL⟩
    · by_cases hc : c = '/'
      · right; exact ⟨[], t, by simp [hc], h⟩
      · left
        intro hm
        rcases List.mem_cons.mp hm with e | e
        · exact hc e.symm
        · exact h e
    · right; exact ⟨c :: Q, L, by simp [hJ], hL⟩

/-- The function `path.Clean` is the loop run from the start state of a rooted or unrooted path. -/
theorem Clean_eq_run (I : List Char) :
    Clean I =
      match I with
      | [] => ['.']
      | c :: t =>
        if c = '/' then finish (run true (['/'], 1) t).1
        else finish (run false ([], 0) (c :: t)).1 := by
  cases I with
  | nil => rfl
  | cons c t =>
    simp only [Clean, finish, run]
    split <;> rfl

theorem finish_length_le (out : List Char) : (finish out).length ≤ out.length + 1 := by
  unfold finish; split <;> simp

theorem finish_of_length_pos (out : List Char) (h : 0 < out.length) : finish out = out := by
  unfold finish; rw [if_neg (by omega)]

theorem backtrack_length_le (out : List Char) (dd : Nat) :
    (backtrack out dd).length ≤ out.length := by
  unfold backtrack; simp

/-- The last element decides the length: with `-manifest` appended to a last element, the
cleaned path is strictly longer than without. -/
theorem last_step_length_lt (rooted : Bool) (st : List Char × Nat) (L : List Char)
    (hL : '/' ∉ L) :
    (finish (run rooted st L).1).length
      < (finish (run rooted st (L ++ manifestSuffix)).1).length := by
  have hLm : '/' ∉ L ++ manifestSuffix := by
    intro hm
    rcases List.mem_append.mp hm with h | h
    · exact hL h
    · revert h; decide
  have hlen : (L ++ manifestSuffix).length = L.length + 9 := by simp [manifestSuffix]
  have hne : L ++ manifestSuffix ≠ [] := by
    intro h; rw [h] at hlen; simp at hlen
  have h1 : L ++ manifestSuffix ≠ ['.'] := by
    intro h; rw [h] at hlen; simp at hlen
  have h2 : L ++ manifestSuffix ≠ ['.', '.'] := by
    intro h; rw [h] at hlen; simp at hlen
  rw [run_noslash rooted st _ hLm hne]
  have hbig : (finish (elemStep rooted st (L ++ manifestSuffix)).1).length
      ≥ st.1.length + L.length + 9 := by
    unfold elemStep
    rw [if_neg h1, if_neg h2]
    simp only
    rw [finish_of_length_pos _ (by simp [hlen])]
    split <;> simp [hlen] <;> omega
  refine lt_of_lt_of_le ?_ hbig
  by_cases hnil : L = []
  · subst hnil
    rw [run_nil]
    have := finish_length_le st.1
    simp only [List.length_nil]; omega
  · rw [run_noslash rooted st L hL hnil]
    have hLpos : 0 < L.length := List.length_pos.mpr hnil
    unfold elemStep
    split
    · have := finish_length_le st.1; omega
    · split
      · split
        · have := finish_length_le (backtrack st.1 st.2)
          have := backtrack_length_le st.1 st.2
          simp only; omega
        · split
          · simp only
            rw [finish_of_length_pos _ (by simp)]
            split <;> simp <;> omega
          · have := finish_length_le st.1; omega
      · simp only
        rw [finish_of_length_pos _ (by simp; omega)]
        split <;> (simp; try omega)

/-- Appending `-manifest` to a path makes the result of the loop strictly longer. -/
theorem run_length_lt (rooted : Bool) (st : List Char × Nat) (J : List Char) :
    (finish (run rooted st J).1).length
      < (finish (run rooted st (J ++ manifestSuffix)).1).length := by
  rcases exists_last_element J with h | ⟨Q, L, hJ, hL⟩
  · exact last_step_length_lt rooted st J h
  · subst hJ
    rw [List.append_assoc, List.cons_append, run_append_slash rooted Q.length Q (le_refl _),
      run_append_slash rooted Q.length Q (le_refl _)]
    exact last_step_length_lt rooted _ L hL

/-- Appending `-manifest` to a path makes the cleaned path strictly longer. -/
theorem Clean_length_lt (I : List Char) :
    (Clean I).length < (Clean (I ++ manifestSuffix)).length := by
  cases I with
  | nil => decide
  | cons c t =>
    rw [Clean_eq_run, List.cons_append, Clean_eq_run]
    simp only
    split
    · exact run_length_lt true _ t
    · exact run_length_lt false _ (c :: t)

theorem joinBuf_pair (F B : List Char) :
    joinBuf [F, B] = if F = [] then B else F ++ '/' :: B := by
  unfold joinBuf
  cases F with
  | nil => cases B <;> simp
  | cons a t => simp

/-- The key `path.Join(F, B + "-manifest")` differs from `path.Join(F, B)`, whatever `F` and `B` are. -/
theorem Join_manifest_ne (F B : List Char) :
    Join [F, B ++ manifestSuffix] ≠ Join [F, B] := by
  have hb : joinBuf [F, B ++ manifestSuffix] = joinBuf [F, B] ++ manifestSuffix := by
    rw [joinBuf_pair, joinBuf_pair]; split <;> simp
  have h1 : Join [F, B ++ manifestSuffix] = Clean (joinBuf [F, B] ++ manifestSuffix) := by
    unfold Join; rw [if_neg (by simp [manifestSuffix]), hb]
  intro h
  rw [h1] at h
  have hlt := Clean_length_lt (joinBuf [F, B])
  unfold Join at h
  split at h
  · rw [h] at hlt; simp at hlt
  · rw [h] at hlt; exact lt_irrefl _ hlt

end gopath

namespace driver
open resources

/-- The manifest key differs from the image key, whatever the folder and the image path are. -/
theorem manifestKey_ne_imageKey (cfg : MachineImageDriverConfig) :
    manifestKey cfg ≠ imageKey cfg := by
  unfold manifestKey imageKey pathJoin
  intro h
  have h2 := congrArg String.data h
  simp only [String.data_append] at h2
  exact gopath.Join_manifest_ne _ _ h2

end driver

end LightStemcell

namespace LightStemcell
namespace gopath

theorem splitSlash_eq (L : List Char) :
    splitSlash L = L.takeWhile (fun x => x ≠ '/') ::
      (match L.dropWhile (fun x => x ≠ '/') with
       | [] => []
       | _ :: r => splitSlash r) := by
  induction L with
  | nil => simp [splitSlash]
  | cons c t ih =>
    by_cases hc : c = '/'
    · subst hc; simp [splitSlash]
    · rw [List.takeWhile_cons_of_pos (by simpa using hc),
        List.dropWhile_cons_of_pos (by simpa using hc)]
      simp only [splitSlash, if_neg hc]
      rw [ih]

theorem NormRel.ne_nil {p : List Char} (h : NormRel p) : p ≠ [] := by
  cases h with
  | single c hc => exact hc.1
  | snoc p c _ _ => simp

theorem NormRel.head_ne_slash {p : List Char} (h : NormRel p) : p.head? ≠ some '/' := by
  induction h with
  | single c hc =>
    intro hh
    cases c with
    | nil => simp at hh
    | cons a t =>
      simp only [List.head?_cons, Option.some.injEq] at hh
      exact hc.2.1 (hh ▸ List.mem_cons_self _ _)
  | snoc p c hp _ ih =>
    cases p with
    | nil => exact absurd rfl hp.ne_nil
    | cons a t => simpa using ih

/-- From an unrooted state whose buffer is empty or clean, a plain element is appended to the
buffer behind a slash. -/
theorem elemStep_plain (out : List Char) (dd : Nat) (c : List Char) (hc : Plain c) :
    elemStep false (out, dd) c = ((if out = [] then c else out ++ '/' :: c), dd) := by
  unfold elemStep
  rw [if_neg hc.2.2.1, if_neg hc.2.2.2]
  by_cases ho : out = []
  · subst ho; simp
  · have : out.length ≠ 0 := fun h => ho (List.length_eq_zero.mp h)
    simp [ho, this]

/-- Running the loop on a clean relative path appends it to the buffer. -/
theorem run_normRel (p : List Char) (hp : NormRel p) :
    ∀ (out : List Char) (dd : Nat),
      run false (out, dd) p = ((if out = [] then p else out ++ '/' :: p), dd) := by
  induction hp with
  | single c hc =>
    intro out dd
    rw [run_noslash false _ c hc.2.1 hc.1, elemStep_plain out dd c hc]
  | snoc p c hp hc ih =>
    intro out dd
    rw [run_append_slash false p.length p (le_refl _), ih,
      run_noslash false _ c hc.2.1 hc.1, elemStep_plain _ dd c hc]
    by_cases ho : out = []
    · subst ho; simp [hp.ne_nil]
    · simp [ho]

/-- The function `path.Clean` leaves a clean relative path as it is. -/
theorem Clean_normRel (p : List Char) (hp : NormRel p) : Clean p = p := by
  rw [Clean_eq_run]
  cases p with
  | nil => exact absurd rfl hp.ne_nil
  | cons a t =>
    have ha : a ≠ '/' := by
      have := hp.head_ne_slash
      simpa using this
    simp only [if_neg ha]
    rw [run_normRel _ hp]
    simp [finish]

theorem NormRel.cons_plain {p : List Char} (hp : NormRel p) (K : List Char) (hK : Plain K) :
    NormRel (K ++ '/' :: p) := by
  induction hp with
  | single c hc => exact NormRel.snoc K c (NormRel.single K hK) hc
  | snoc p c _ hc ih =>
    have : K ++ '/' :: (p ++ '/' :: c) = (K ++ '/' :: p) ++ '/' :: c := by simp
    rw [this]
    exact NormRel.snoc _ c ih hc

theorem takeWhile_noslash (L : List Char) : '/' ∉ L.takeWhile (fun x => x ≠ '/') := by
  intro h
  have := List.mem_takeWhile_imp h
  simp at this

/-- Running the loop on an unrooted path without `..` elements, from a buffer that is empty or
clean, leaves a buffer that is empty or clean. -/
theorem run_noDotDot (n : Nat) :
    ∀ (F : List Char), F.length ≤ n → ['.', '.'] ∉ splitSlash F →
      ∀ (out : List Char) (dd : Nat), (out = [] ∨ NormRel out) →
        ((run false (out, dd) F).1 = [] ∨ NormRel (run false (out, dd) F).1) := by
  induction n with
  | zero =>
    intro F hF _ out dd ho
    have : F = [] := List.length_eq_zero.mp (Nat.le_zero.mp hF)
    subst this
    rw [run_nil]; exact ho
  | succ n ih =>
    intro F hF hdd out dd ho
    cases F with
    | nil => rw [run_nil]; exact ho
    | cons c t =>
      simp only [List.length_cons, Nat.add_le_add_iff_right] at hF
      by_cases hc : c = '/'
      · subst hc
        rw [run_slash]
        refine ih t hF ?_ out dd ho
        intro hm
        apply hdd
        simp only [splitSlash, if_true]
        exact List.mem_cons_of_mem _ hm
      · rw [run_elem false _ c t hc]
        have hsp := splitSlash_eq (c :: t)
        have hlen : ((c :: t).dropWhile (fun x => x ≠ '/')).length ≤ n := by
          rw [List.dropWhile_cons_of_pos (by simpa using hc)]
          exact le_trans (dropWhile_length_le _ _) hF
        have helem : (c :: t).takeWhile (fun x => x ≠ '/') ≠ ['.', '.'] := by
          intro he
          apply hdd
          rw [hsp, he]
          exact List.mem_cons_self _ _
        have hrem : ['.', '.'] ∉ splitSlash ((c :: t).dropWhile (fun x => x ≠ '/')) := by
          intro hm
          apply hdd
          rw [hsp]
          rcases hd : (c :: t).dropWhile (fun x => x ≠ '/') with _ | ⟨a, r⟩
          · rw [hd] at hm; simp [splitSlash] at hm
          · rw [hd] at hm
            have ha : a = '/' := by
              have hh := List.head_dropWhile_not (fun x => x ≠ '/') (c :: t)
                (by rw [hd]; simp)
              simp only [hd, List.head_cons] at hh
              simpa using hh
            subst ha
            simp only [splitSlash, if_true, List.mem_cons] at hm
            rcases hm with hm | hm
            · exact absurd hm (by decide)
            · exact List.mem_cons_of_mem _ hm
        have hne : (c :: t).takeWhile (fun x => x ≠ '/') ≠ [] := by
          rw [List.takeWhile_cons_of_pos (by simpa using hc)]; simp
        have hst : (elemStep false (out, dd) ((c :: t).takeWhile (fun x => x ≠ '/'))).1 = []
            ∨ NormRel (elemStep false (out, dd) ((c :: t).takeWhile (fun x => x ≠ '/'))).1 := by
          by_cases hdot : (c :: t).takeWhile (fun x => x ≠ '/') = ['.']
          · rw [hdot]
            have : elemStep false (out, dd) ['.'] = (out, dd) := by simp [elemStep]
            rw [this]; exact ho
          · have hplain : Plain ((c :: t).takeWhile (fun x => x ≠ '/')) :=
              ⟨hne, takeWhile_noslash _, hdot, helem⟩
            rw [elemStep_plain _ _ _ hplain]
            right
            rcases ho with ho | ho
            · subst ho; simp only [if_true]; exact NormRel.single _ hplain
            · simp only [if_neg ho.ne_nil]; exact NormRel.snoc _ _ ho hplain
        exact ih _ hlen hrem _ _ hst

/-- The key `path.Join(F, base)` of a plain base name under an unrooted folder without `..`
elements is a clean relative path. -/
theorem Join_normRel (F base : List Char) (hF : F.head? ≠ some '/')
    (hdd : ['.', '.'] ∉ splitSlash F) (hB : Plain base) : NormRel (Join [F, base]) := by
  have hsize : ¬ (List.map List.length [F, base]).sum = 0 := by
    have : 0 < base.length := List.length_pos.mpr hB.1
    simp only [List.map_cons, List.map_nil, List.sum_cons, List.sum_nil]; omega
  unfold Join
  rw [if_neg hsize, joinBuf_pair]
  by_cases hFn : F = []
  · rw [if_pos hFn, Clean_normRel _ (NormRel.single _ hB)]
    exact NormRel.single _ hB
  · rw [if_neg hFn, Clean_eq_run]
    cases F with
    | nil => exact absurd rfl hFn
    | cons a t =>
      have ha : a ≠ '/' := by simpa using hF
      simp only [List.cons_append, if_neg ha]
      rw [← List.cons_append, run_append_slash false _ (a :: t) (le_refl _),
        run_noslash false _ base hB.2.1 hB.1]
      have hst := run_noDotDot (a :: t).length (a :: t) (le_refl _) hdd [] 0 (Or.inl rfl)
      rw [show run false ([], 0) (a :: t)
          = ((run false ([], 0) (a :: t)).1, (run false ([], 0) (a :: t)).2) from rfl,
        elemStep_plain _ _ _ hB]
      rcases hst with hst | hst
      · rw [hst]; simp only [if_true]
        rw [finish_of_length_pos _ (List.length_pos.mpr hB.1)]
        exact NormRel.single _ hB
      · rw [if_neg hst.ne_nil, finish_of_length_pos _ (by simp)]
        exact NormRel.snoc _ _ hst hB

/-- Joining a plain bucket name and a clean relative key and cutting the result at its first
slash gives back the bucket name and the key. -/
theorem SplitN2_Join (K key : List Char) (hK : Plain K) (hkey : NormRel key) :
    SplitN2 (Join [K, key]) = [K, key] := by
  have hsize : ¬ (List.map List.length [K, key]).sum = 0 := by
    have : 0 < K.length := List.length_pos.mpr hK.1
    simp only [List.map_cons, List.map_nil, List.sum_cons, List.sum_nil]; omega
  unfold Join
  rw [if_neg hsize, joinBuf_pair, if_neg hK.1, Clean_normRel _ (hkey.cons_plain K hK)]
  unfold SplitN2
  rw [if_pos (by simp), takeWhile_append_slash, dropWhile_append_slash,
    takeWhile_of_not_mem _ hK.2.1, dropWhile_of_not_mem _ hK.2.1]
  simp

end gopath

namespace driver
open resources

/-- A string that is a plain name has plain characters. -/
theorem plain_of_string (s : String) (h1 : s ≠ "") (h2 : '/' ∉ s.data) (h3 : s ≠ ".")
    (h4 : s ≠ "..") : gopath.Plain s.data := by
  refine ⟨?_, h2, ?_, ?_⟩
  · intro h; exact h1 (String.ext h)
  · intro h; exact h3 (String.ext h)
  · intro h; exact h4 (String.ext h)

end driver

end LightStemcell

/-! ## The machine-image driver -/

namespace LightStemcell
namespace driver
open resources

/-- A manifest that `generateManifest` returns carries the presigned DELETE URL of the image
object as the delete capability of its part. -/
theorem generateManifest_ok {σ : Type} (env : Env σ) (bucketName keyName : String)
    (sizeInBytes volumeSizeGB : Int) (fileFormat : String)
    (m : manifests.ImportVolumeManifest) (gcs : List Effect)
    (h : generateManifest env bucketName keyName sizeInBytes volumeSizeGB fileFormat
      = (.ok m, gcs)) :
    env.PresignDeleteObject bucketName keyName = .ok m.Parts.Part.DeleteURL
    ∧ m.VolumeSizeGB = volumeSizeGB := by
  unfold generateManifest at h
  rcases hg : env.PresignGetObject bucketName keyName with e | g
  · simp [hg] at h
  · rcases hh : env.PresignHeadObject bucketName keyName with e | hd
    · simp [hg, hh] at h
    · rcases hd2 : env.PresignDeleteObject bucketName keyName with e | d
      · simp [hg, hh, hd2] at h
      · simp only [hg, hh, hd2, Prod.mk.injEq, Except.ok.injEq] at h
        rw [← h.1]
        exact ⟨rfl, rfl⟩

/-- When `uploadManifest` returns without an error, the URL it returns is the presigned GET URL
of the manifest key, and the manifest's self-destruct URL is the presigned DELETE URL of the
manifest key; the parts of the manifest are untouched. -/
theorem uploadManifest_ok {σ : Type} (env : Env σ) (bucketName bucketFolder imgBaseName : String)
    (m : manifests.ImportVolumeManifest) (w : σ) (r : ManifestUpload)
    (h : (uploadManifest env bucketName bucketFolder imgBaseName m w).out = .ret r)
    (herr : r.err = none) :
    env.PresignGetObject bucketName (pathJoin bucketFolder (imgBaseName ++ "-manifest"))
        = .ok r.url
    ∧ env.PresignDeleteObject bucketName (pathJoin bucketFolder (imgBaseName ++ "-manifest"))
        = .ok r.m.SelfDestructURL
    ∧ r.m.Parts = m.Parts := by
  unfold uploadManifest at h
  simp only at h
  split at h
  · simp only [Outcome.ret.injEq] at h; rw [← h] at herr; simp at herr
  · split at h
    · simp only [Outcome.ret.injEq] at h; rw [← h] at herr; simp at herr
    · split at h
      · simp only [Outcome.ret.injEq] at h; rw [← h] at herr; simp at herr
      · split at h
        · simp only [Outcome.ret.injEq] at h; rw [← h] at herr; simp at herr
        · split at h
          · simp at h
          · simp only [Outcome.ret.injEq] at h; rw [← h] at herr; simp at herr
          · split at h
            · simp at h
            · simp only [Outcome.ret.injEq] at h; rw [← h] at herr; simp at herr
            · simp only [Outcome.ret.injEq] at h
              rw [← h]
              rename_i hget _ _ hdel _ _ _ _ _ _ _ _ _ _ _
              exact ⟨hget, hdel, rfl⟩

/-- When the second half of `Create` returns a machine image without an error, its `GetURL` is
the presigned GET URL of the manifest key and its `DeleteURLs` are the presigned DELETE URLs of
the manifest key and of the image key, in this order. -/
theorem createManifest_ok {σ : Type} (env : Env σ) (cfg : MachineImageDriverConfig)
    (B key : String) (cs : List Effect) (w : σ) (mi : MachineImage)
    (h : (createManifest env cfg B key cs w).out = .ret (mi, none)) :
    env.PresignGetObject cfg.BucketName (pathJoin cfg.BucketFolder (B ++ "-manifest"))
        = .ok mi.GetURL
    ∧ ∃ d1 d2, mi.DeleteURLs = [d1, d2]
        ∧ env.PresignDeleteObject cfg.BucketName (pathJoin cfg.BucketFolder (B ++ "-manifest"))
            = .ok d1
        ∧ env.PresignDeleteObject cfg.BucketName key = .ok d2 := by
  unfold createManifest at h
  simp only at h
  split at h
  · simp at h
  · split at h
    · simp at h
    · rename_i m gcs hgen
      have hg := generateManifest_ok env _ _ _ _ _ m gcs hgen
      split at h
      · simp at h
      · simp at h
      · rename_i url m2 hum
        have hu := uploadManifest_ok env _ _ _ m w _ hum rfl
        simp only [Outcome.ret.injEq, Prod.mk.injEq, and_true] at h
        rw [← h]
        refine ⟨hu.1, _, _, rfl, hu.2.1, ?_⟩
        have hp : m2.Parts = m.Parts := hu.2.2
        rw [hp]
        exact hg.1

/-- When `Create` returns a machine image without an error, its `GetURL` is the presigned GET
URL of the manifest key and its `DeleteURLs` are the presigned DELETE URLs of the manifest key
and of the image key, in this order. -/
theorem create_ok {σ : Type} (env : Env σ) (cfg : MachineImageDriverConfig) (w : σ)
    (mi : MachineImage) (h : (Create env cfg w).out = .ret (mi, none)) :
    env.PresignGetObject cfg.BucketName (manifestKey cfg) = .ok mi.GetURL
    ∧ ∃ d1 d2, mi.DeleteURLs = [d1, d2]
        ∧ env.PresignDeleteObject cfg.BucketName (manifestKey cfg) = .ok d1
        ∧ env.PresignDeleteObject cfg.BucketName (imageKey cfg) = .ok d2 := by
  unfold Create at h
  split at h
  · simp at h
  · simp at h
  · simp only at h
    split at h
    · simp at h
    · exact createManifest_ok env cfg _ _ _ _ mi h
    · split at h
      · simp at h
      · simp at h
      · exact createManifest_ok env cfg _ _ _ _ mi h

end driver

end LightStemcell

namespace LightStemcell
namespace driver
open resources

/-- A successful `GetFileInfo` opened the file, read its size, and fingerprinted it. -/
theorem getFileInfo_ok {σ : Type} (env : Env σ) (path : String) (w : σ) (finfo : FileInfoT)
    (h : GetFileInfo env path w = .ret (finfo, none)) :
    ∃ f size, env.Open path w = .ok f ∧ f.stat = .ok size
      ∧ finfo = { filePath := path, size := size, md5 := getMd5 env.md5hex f } := by
  unfold GetFileInfo at h
  rcases ho : env.Open path w with e | f
  · simp [ho] at h
  · rcases hs : f.stat with e | size
    · simp [ho, hs] at h
    · simp [ho, hs] at h
      exact ⟨f, size, rfl, hs, h.symm⟩

/-- When `s3Path` splits into a bucket and a key, the probe returns, having asked S3 once, and
leaves the world alone. -/
theorem localfileInS3_spec {σ : Type} (env : Env σ) (s3Path b k : String) (lf : FileInfoT)
    (w : σ) (hsplit : stringsSplitN2 s3Path = [b, k]) :
    LocalfileInS3 env s3Path lf w =
      { out := .ret (match env.HeadObject b k w with
          | .error _ => false
          | .ok head =>
            match head.Metadata.lookup "md5" with
            | some val => decide (lf.md5 = val)
            | none => false)
        calls := [.headObject b k], world := w } := by
  unfold LocalfileInS3
  simp only [hsplit, List.getElem?_cons_zero, List.getElem?_cons_succ]
  rcases env.HeadObject b k w with e | head
  · rfl
  · simp only
    rcases head.Metadata.lookup "md5" with _ | val <;> rfl

/-- When `s3Path` splits into a bucket and a key and the file opens, `Upload` returns, having
sent one upload request for that bucket and key, tagged with the file's md5. -/
theorem upload_spec {σ : Type} (env : Env σ) (s3Path b k : String) (fchan : FileInfoT)
    (w : σ) (f : OpenFile) (hsplit : stringsSplitN2 s3Path = [b, k])
    (ho : env.Open fchan.filePath w = .ok f) :
    (Upload env s3Path fchan w).calls =
        [.upload { Bucket := b, Key := k, Body := fchan.filePath
                   ContentType := "application/octet-stream"
                   Metadata := [("md5", fchan.md5)] }]
    ∧ ∃ r, (Upload env s3Path fchan w).out = .ret r := by
  unfold Upload
  simp only [hsplit, List.getElem?_cons_zero, List.getElem?_cons_succ, ho]
  rcases env.Upload _ w with ⟨e | u, w2⟩
  · exact ⟨rfl, _, rfl⟩
  · exact ⟨rfl, _, rfl⟩

/-- The second half of `Create` first reads the image object back. -/
theorem createManifest_calls {σ : Type} (env : Env σ) (cfg : MachineImageDriverConfig)
    (B key : String) (cs : List Effect) (w : σ) :
    cs ++ [Effect.headObject cfg.BucketName key] <+: (createManifest env cfg B key cs w).calls := by
  unfold createManifest
  simp only
  split
  · exact List.prefix_rfl
  · split
    · exact List.prefix_append _ _
    · split <;> exact (List.prefix_append _ _).trans (List.prefix_append _ _)

/-- The request at position `cs.length` of the second half of `Create` is the read-back. -/
theorem createManifest_calls_get {σ : Type} (env : Env σ) (cfg : MachineImageDriverConfig)
    (B key : String) (cs : List Effect) (w : σ) :
    (createManifest env cfg B key cs w).calls[cs.length]?
      = some (Effect.headObject cfg.BucketName key) := by
  obtain ⟨rest, hrest⟩ := createManifest_calls env cfg B key cs w
  rw [← hrest, List.append_assoc, List.getElem?_append_right (le_refl _)]
  simp

/-- The second half of `Create` keeps the requests made before it. -/
theorem createManifest_calls_lt {σ : Type} (env : Env σ) (cfg : MachineImageDriverConfig)
    (B key : String) (cs : List Effect) (w : σ) (i : Nat) (hi : i < cs.length) :
    (createManifest env cfg B key cs w).calls[i]? = cs[i]? := by
  obtain ⟨rest, hrest⟩ := createManifest_calls env cfg B key cs w
  rw [← hrest, List.append_assoc, List.getElem?_append_left hi]

/-- C7. Dedup decision.  Let `Create` run on an image whose fingerprint `finfo` was taken
successfully and whose `s3Path` splits into a bucket `b` and a key `k`.  Then `LocalfileInS3`
returns, and it returns false exactly when the `HeadObject` probe returns an error (a missing
object included), or the metadata it returns has no `"md5"` entry, or that entry differs from
the local md5.  `Create` sends the upload request for the image object (bucket `b`, key `k`,
tagged with the local md5) right after the probe if and only if `LocalfileInS3` returned false;
when it returned true, `Create` goes straight on to reading the object back, with only the
probe request made and the store untouched. -/
theorem create_uploads_iff_not_in_s3 {σ : Type} (env : Env σ) (cfg : MachineImageDriverConfig)
    (w : σ) (finfo : FileInfoT) (b k : String)
    (hfi : GetFileInfo env cfg.MachineImagePath w = .ret (finfo, none))
    (hsplit : stringsSplitN2 (imageS3Path cfg) = [b, k]) :
    (∃ r, (LocalfileInS3 env (imageS3Path cfg) finfo w).out = .ret r)
    ∧ ((LocalfileInS3 env (imageS3Path cfg) finfo w).out = .ret false ↔
        ((∃ e, env.HeadObject b k w = .error e)
          ∨ ∃ head, env.HeadObject b k w = .ok head
              ∧ (head.Metadata.lookup "md5" = none
                 ∨ ∃ val, head.Metadata.lookup "md5" = some val ∧ finfo.md5 ≠ val)))
    ∧ ((LocalfileInS3 env (imageS3Path cfg) finfo w).out = .ret true ↔
        ∃ head, env.HeadObject b k w = .ok head
          ∧ head.Metadata.lookup "md5" = some finfo.md5)
    ∧ ((Create env cfg w).calls[0]? = some (.headObject b k))
    ∧ ((∃ input, (Create env cfg w).calls[1]? = some (.upload input)) ↔
        (LocalfileInS3 env (imageS3Path cfg) finfo w).out = .ret false)
    ∧ ((LocalfileInS3 env (imageS3Path cfg) finfo w).out = .ret false →
        (Create env cfg w).calls[1]? =
          some (.upload { Bucket := b, Key := k, Body := cfg.MachineImagePath
                          ContentType := "application/octet-stream"
                          Metadata := [("md5", finfo.md5)] }))
    ∧ ((LocalfileInS3 env (imageS3Path cfg) finfo w).out = .ret true →
        (Create env cfg w).calls[1]? = some (.headObject cfg.BucketName (imageKey cfg))
        ∧ Create env cfg w =
            createManifest env cfg (filepathBase cfg.MachineImagePath) (imageKey cfg)
              [.headObject b k] w) := by
  obtain ⟨f, size, ho, -, hfinfo⟩ := getFileInfo_ok env _ w finfo hfi
  have hpath : finfo.filePath = cfg.MachineImagePath := by rw [hfinfo]
  have hprobe := localfileInS3_spec env (imageS3Path cfg) b k finfo w hsplit
  have hup := upload_spec env (imageS3Path cfg) b k finfo w f hsplit (by rw [hpath]; exact ho)
  -- the probe
  have hfalse : (LocalfileInS3 env (imageS3Path cfg) finfo w).out = .ret false ↔
        ((∃ e, env.HeadObject b k w = .error e)
          ∨ ∃ head, env.HeadObject b k w = .ok head
              ∧ (head.Metadata.lookup "md5" = none
                 ∨ ∃ val, head.Metadata.lookup "md5" = some val ∧ finfo.md5 ≠ val)) := by
    rw [hprobe]
    rcases env.HeadObject b k w with e | head
    · simp
    · rcases hl : head.Metadata.lookup "md5" with _ | val
      · simp [hl, -List.lookup_eq_none_iff]
      · simp [hl, -List.lookup_eq_none_iff]
  have htrue : (LocalfileInS3 env (imageS3Path cfg) finfo w).out = .ret true ↔
        ∃ head, env.HeadObject b k w = .ok head
          ∧ head.Metadata.lookup "md5" = some finfo.md5 := by
    rw [hprobe]
    rcases env.HeadObject b k w with e | head
    · simp
    · rcases hl : head.Metadata.lookup "md5" with _ | val
      · simp [hl, -List.lookup_eq_none_iff]
      · simp [hl, -List.lookup_eq_none_iff, eq_comm]
  -- `Create`, by the answer of the probe
  have hcreateT : (LocalfileInS3 env (imageS3Path cfg) finfo w).out = .ret true →
      Create env cfg w =
        createManifest env cfg (filepathBase cfg.MachineImagePath) (imageKey cfg)
          [.headObject b k] w := by
    intro ht
    have ht2 : (LocalfileInS3 env (pathJoin cfg.BucketName (pathJoin cfg.BucketFolder
        (filepathBase cfg.MachineImagePath))) finfo w).out = .ret true := ht
    unfold Create
    simp only [hfi, ht2]
    have hc : (LocalfileInS3 env (imageS3Path cfg) finfo w).calls = [.headObject b k] := by
      rw [hprobe]
    have hw : (LocalfileInS3 env (imageS3Path cfg) finfo w).world = w := by rw [hprobe]
    show createManifest env cfg _ _ (LocalfileInS3 env (imageS3Path cfg) finfo w).calls
      (LocalfileInS3 env (imageS3Path cfg) finfo w).world = _
    rw [hc, hw]; rfl
  have hcreateF : (LocalfileInS3 env (imageS3Path cfg) finfo w).out = .ret false →
      (Create env cfg w).calls[0]? = some (.headObject b k)
      ∧ (Create env cfg w).calls[1]? =
          some (.upload { Bucket := b, Key := k, Body := cfg.MachineImagePath
                          ContentType := "application/octet-stream"
                          Metadata := [("md5", finfo.md5)] }) := by
    intro hf
    have hf2 : (LocalfileInS3 env (pathJoin cfg.BucketName (pathJoin cfg.BucketFolder
        (filepathBase cfg.MachineImagePath))) finfo w).out = .ret false := hf
    have hc : (LocalfileInS3 env (pathJoin cfg.BucketName (pathJoin cfg.BucketFolder
        (filepathBase cfg.MachineImagePath))) finfo w).calls = [.headObject b k] := by
      show (LocalfileInS3 env (imageS3Path cfg) finfo w).calls = _
      rw [hprobe]
    have hw : (LocalfileInS3 env (pathJoin cfg.BucketName (pathJoin cfg.BucketFolder
        (filepathBase cfg.MachineImagePath))) finfo w).world = w := by
      show (LocalfileInS3 env (imageS3Path cfg) finfo w).world = _
      rw [hprobe]
    have huc : (Upload env (pathJoin cfg.BucketName (pathJoin cfg.BucketFolder
        (filepathBase cfg.MachineImagePath))) finfo w).calls = _ := hup.1
    obtain ⟨r, hr⟩ := hup.2
    have hr2 : (Upload env (pathJoin cfg.BucketName (pathJoin cfg.BucketFolder
        (filepathBase cfg.MachineImagePath))) finfo w).out = .ret r := hr
    unfold Create
    simp only [hfi, hf2, hc, hw, hr2, huc, hpath]
    rcases r with _ | err
    · simp only
      rw [createManifest_calls_lt _ _ _ _ _ _ 0 (by simp),
        createManifest_calls_lt _ _ _ _ _ _ 1 (by simp)]
      simp
    · simp
  refine ⟨?_, hfalse, htrue, ?_, ?_, fun hf => (hcreateF hf).2, ?_⟩
  · rw [hprobe]; exact ⟨_, rfl⟩
  · rcases hb : (LocalfileInS3 env (imageS3Path cfg) finfo w).out with r | msg
    · cases r
      · exact (hcreateF hb).1
      · rw [hcreateT hb]
        obtain ⟨rest, hrest⟩ := createManifest_calls env cfg
          (filepathBase cfg.MachineImagePath) (imageKey cfg) [.headObject b k] w
        rw [← hrest]; simp
    · rw [hprobe] at hb; simp at hb
  · constructor
    · rintro ⟨input, hin⟩
      rcases hb : (LocalfileInS3 env (imageS3Path cfg) finfo w).out with r | msg
      · cases r
        · rfl
        · rw [hcreateT hb] at hin
          have := createManifest_calls_get env cfg (filepathBase cfg.MachineImagePath)
            (imageKey cfg) [.headObject b k] w
          simp only [List.length_singleton] at this
          rw [this] at hin
          simp at hin
      · rw [hprobe] at hb; simp at hb
    · intro hf
      exact ⟨_, (hcreateF hf).2⟩
  · intro ht
    refine ⟨?_, hcreateT ht⟩
    rw [hcreateT ht]
    exact createManifest_calls_get env cfg (filepathBase cfg.MachineImagePath)
      (imageKey cfg) [.headObject b k] w

end driver

end LightStemcell

namespace LightStemcell
namespace driver
open resources

/-- Witness for C7: in an empty store the image is uploaded right after the probe; in a store
that holds the image with the matching hash tag the probe is followed by the read-back. -/
theorem create_uploads_iff_not_in_s3_witness :
    (Create exampleEnv exampleDriverConfig []).calls[1]? =
        some (.upload { Bucket := "bkt", Key := "dir/root.img", Body := "root.img"
                        ContentType := "application/octet-stream"
                        Metadata := [("md5", "12345")] })
    ∧ (Create exampleEnv exampleDriverConfig exampleStoreWithImage).calls[1]? =
        some (.headObject "bkt" "dir/root.img") :=
  ⟨(create_uploads_iff_not_in_s3 exampleEnv exampleDriverConfig [] exampleFileInfo
      "bkt" "dir/root.img" (by decide) (by decide)).2.2.2.2.2.1 (by decide),
   ((create_uploads_iff_not_in_s3 exampleEnv exampleDriverConfig exampleStoreWithImage
      exampleFileInfo "bkt" "dir/root.img" (by decide) (by decide)).2.2.2.2.2.2
      (by decide)).1⟩

/-- C8. Machine-image handle: whenever `Create` returns a machine image without an error, for an
image with base file name `B = filepath.Base(MachineImagePath)` in bucket `K` and folder `F`,
the machine image's `GetURL` is the presigned GET URL of the manifest key
`path.Join(F, B + "-manifest")` in `K`, and its `DeleteURLs` are exactly two entries, in this
order: the presigned DELETE URL of that manifest key (the manifest's `SelfDestructURL`) and the
presigned DELETE URL of the image key `path.Join(F, B)`; and the manifest key differs from the
image key. -/
theorem create_machine_image_handle {σ : Type} (env : Env σ) (cfg : MachineImageDriverConfig)
    (w : σ) (mi : MachineImage) (h : (Create env cfg w).out = .ret (mi, none)) :
    env.PresignGetObject cfg.BucketName
        (pathJoin cfg.BucketFolder (filepathBase cfg.MachineImagePath ++ "-manifest"))
      = .ok mi.GetURL
    ∧ (∃ d1 d2, mi.DeleteURLs = [d1, d2]
        ∧ env.PresignDeleteObject cfg.BucketName
            (pathJoin cfg.BucketFolder (filepathBase cfg.MachineImagePath ++ "-manifest"))
          = .ok d1
        ∧ env.PresignDeleteObject cfg.BucketName
            (pathJoin cfg.BucketFolder (filepathBase cfg.MachineImagePath))
          = .ok d2)
    ∧ pathJoin cfg.BucketFolder (filepathBase cfg.MachineImagePath ++ "-manifest")
        ≠ pathJoin cfg.BucketFolder (filepathBase cfg.MachineImagePath) := by
  have hc := create_ok env cfg w mi h
  exact ⟨hc.1, hc.2, manifestKey_ne_imageKey cfg⟩

/-- Witness for C8: `Create` on the example image in an empty store. -/
theorem create_machine_image_handle_witness :
    exampleEnv.PresignGetObject "bkt" "dir/root.img-manifest"
      = .ok "GET https://bkt/dir/root.img-manifest"
    ∧ (pathJoin "dir" (filepathBase "root.img" ++ "-manifest")
        ≠ pathJoin "dir" (filepathBase "root.img")) :=
  have h := create_machine_image_handle exampleEnv exampleDriverConfig []
    { GetURL := "GET https://bkt/dir/root.img-manifest"
      DeleteURLs := ["DELETE https://bkt/dir/root.img-manifest",
                     "DELETE https://bkt/dir/root.img"] }
    (by decide)
  ⟨h.1, h.2.2⟩

/-- C10. Bucket/key round trip: for a bucket name `K` that is non-empty, has no `/` and is
neither `.` nor `..`, a folder `F` that does not start with `/` and has no `..` element, and a
plain base name, `strings.SplitN(s3Path, "/", 2)` of
`s3Path = path.Join(K, path.Join(F, base))` is exactly `[K, keyName]` with
`keyName = path.Join(F, base)`.  So the index `[1]` is in range: `LocalfileInS3` and `Upload`
do not panic, the probe asks for `(K, keyName)` and an upload goes to `(K, keyName)`, the
bucket and key that `Create` reads back and signs. -/
theorem s3Path_round_trip (K F base : String)
    (hK1 : K ≠ "") (hK2 : '/' ∉ K.data) (hK3 : K ≠ ".") (hK4 : K ≠ "..")
    (hF1 : F.data.head? ≠ some '/') (hF2 : "..".data ∉ gopath.splitSlash F.data)
    (hB1 : base ≠ "") (hB2 : '/' ∉ base.data) (hB3 : base ≠ ".") (hB4 : base ≠ "..") :
    stringsSplitN2 (pathJoin K (pathJoin F base)) = [K, pathJoin F base]
    ∧ (∀ (σ : Type) (env : Env σ) (lf : FileInfoT) (w : σ),
        (LocalfileInS3 env (pathJoin K (pathJoin F base)) lf w).calls
            = [.headObject K (pathJoin F base)]
        ∧ ∃ r, (LocalfileInS3 env (pathJoin K (pathJoin F base)) lf w).out = .ret r)
    ∧ (∀ (σ : Type) (env : Env σ) (fchan : FileInfoT) (w : σ),
        (∃ r, (Upload env (pathJoin K (pathJoin F base)) fchan w).out = .ret r)
        ∧ ∀ e ∈ (Upload env (pathJoin K (pathJoin F base)) fchan w).calls,
            e = .upload { Bucket := K, Key := pathJoin F base, Body := fchan.filePath
                          ContentType := "application/octet-stream"
                          Metadata := [("md5", fchan.md5)] }) := by
  have hsplit : stringsSplitN2 (pathJoin K (pathJoin F base)) = [K, pathJoin F base] := by
    have hkey := gopath.Join_normRel F.data base.data hF1 hF2
      (plain_of_string base hB1 hB2 hB3 hB4)
    have := gopath.SplitN2_Join K.data _ (plain_of_string K hK1 hK2 hK3 hK4) hkey
    unfold stringsSplitN2 pathJoin
    simp only [this, List.map_cons, List.map_nil]
  refine ⟨hsplit, ?_, ?_⟩
  · intro σ env lf w
    rw [localfileInS3_spec env _ K (pathJoin F base) lf w hsplit]
    exact ⟨rfl, _, rfl⟩
  · intro σ env fchan w
    unfold Upload
    simp only [hsplit, List.getElem?_cons_zero, List.getElem?_cons_succ]
    rcases env.Open fchan.filePath w with e | f
    · exact ⟨⟨_, rfl⟩, by simp⟩
    · simp only
      rcases env.Upload _ w with ⟨e | u, w2⟩
      · exact ⟨⟨_, rfl⟩, by simp⟩
      · exact ⟨⟨_, rfl⟩, by simp⟩

/-- Witness for C10: bucket `bkt`, folder `dir`, image `root.img`. -/
theorem s3Path_round_trip_witness :
    stringsSplitN2 (pathJoin "bkt" (pathJoin "dir" "root.img")) = ["bkt", pathJoin "dir" "root.img"]
    ∧ pathJoin "dir" "root.img" = "dir/root.img" :=
  ⟨(s3Path_round_trip "bkt" "dir" "root.img" (by decide) (by decide) (by decide) (by decide)
      (by decide) (by decide) (by decide) (by decide) (by decide) (by decide)).1, by decide⟩

end driver

end LightStemcell
